import Mathlib

/-!
Verification development for the EventConnect analysis-pipeline service.

The definitions below are a shallow embedding of the Python sources:
  - server/python_storage.py        (MemStorage: sessions/files registry)
  - server/python_services/file_processor.py  (FileProcessor: the orchestrator run
    and the distribution algorithm)
  - main.py                         (HTTP handlers: upload, status, reanalyze)

Python dictionaries are modelled as insertion-ordered association lists,
`datetime.utcnow()` as a logical clock carried by the store, and `uuid.uuid4()`
as a fresh-id counter.  Python exceptions are modelled with `Except`.
-/

namespace EventConnect

/-! ### Python-style insertion-ordered dictionaries -/

def dcontains {κ α : Type} [DecidableEq κ] (d : List (κ × α)) (k : κ) : Bool :=
  d.any (fun p => decide (p.1 = k))

def dget? {κ α : Type} [DecidableEq κ] (d : List (κ × α)) (k : κ) : Option α :=
  (d.find? (fun p => decide (p.1 = k))).map (·.2)

/-- Python `d[k] = v`: overwrite in place when the key exists, else append. -/
def dinsert {κ α : Type} [DecidableEq κ] (d : List (κ × α)) (k : κ) (v : α) :
    List (κ × α) :=
  if dcontains d k then d.map (fun p => if p.1 = k then (k, v) else p)
  else d ++ [(k, v)]

/-- In-place mutation of the value stored at an existing key (identity if absent). -/
def dmodify {κ α : Type} [DecidableEq κ] (d : List (κ × α)) (k : κ) (f : α → α) :
    List (κ × α) :=
  d.map (fun p => if p.1 = k then (p.1, f p.2) else p)

def dkeys {κ α : Type} (d : List (κ × α)) : List κ := d.map (·.1)

def dvalues {κ α : Type} (d : List (κ × α)) : List α := d.map (·.2)

/-! ### Data model: issues, bundles, aggregate analysis results -/

/-- One issue of an aggregate analysis result.  Only the `type` and `file`
keys influence any control flow of the service; both may be absent. -/
structure Issue where
  type : Option String
  file : Option String
deriving DecidableEq

/-- Per-file result bundle `{passedChecks, warnings, errors, issues}`.
Counters are `Int` because the Python code puts arbitrary ints in them. -/
structure Bundle where
  passedChecks : Int
  warnings : Int
  errors : Int
  issues : List Issue
deriving DecidableEq

def emptyBundle : Bundle := { passedChecks := 0, warnings := 0, errors := 0, issues := [] }

/-- Aggregate analysis result `{passedChecks, warnings, errors, issues}`. -/
structure AnalysisResult where
  passedChecks : Int
  warnings : Int
  errors : Int
  issues : List Issue
deriving DecidableEq

/-- Python exceptions raised by the distribution algorithm. -/
inductive PyErr where
  | indexError
  | zeroDivisionError
  | keyError
deriving DecidableEq

/-! ### The distribution algorithm
(`FileProcessor._distribute_issues_across_files`, file_processor.py lines 132-170) -/

/-- Appending an issue to a bundle and bumping the matching counter
(file_processor.py lines 151-160). -/
def applyIssue (i : Issue) (b : Bundle) : Bundle :=
  let b := { b with issues := b.issues ++ [i] }
  match i.type with
  | some "error" => { b with errors := b.errors + 1 }
  | some "warning" => { b with warnings := b.warnings + 1 }
  | some "success" => { b with passedChecks := b.passedChecks + 1 }
  | _ => b

/-- The per-issue step of the distribution loop, given the already-resolved
default file name `d0` (= `file_names[0]`). -/
def distribStep (d0 : String) (d : List (String × Bundle)) (i : Issue) :
    List (String × Bundle) :=
  let t := i.file.getD d0
  if dcontains d t then dmodify d t (applyIssue i) else d

/-- `result = {}` initialisation loop (file_processor.py lines 136-143). -/
def initBundles (fileNames : List String) : List (String × Bundle) :=
  fileNames.foldl (fun d n => dinsert d n emptyBundle) []

/-- Pure view of the issue-attribution loop (lines 146-160), valid when the
file-name list is non-empty (head `d0`). -/
def issuePhase (d0 : String) (issues : List Issue) (d : List (String × Bundle)) :
    List (String × Bundle) :=
  issues.foldl (distribStep d0) d

/-- One step of the baseline-fill loop: `if result[file_name]['passedChecks']
== 0: result[file_name]['passedChecks'] = passed_per_file`. -/
def fillStep (p : Int) (d : List (String × Bundle)) (n : String) :
    List (String × Bundle) :=
  match dget? d n with
  | none => d
  | some b =>
    if b.passedChecks = 0 then dmodify d n (fun b => { b with passedChecks := p })
    else d

/-- Pure view of the baseline-fill loop (lines 166-168). -/
def fillPhase (p : Int) (fileNames : List String) (d : List (String × Bundle)) :
    List (String × Bundle) :=
  fileNames.foldl (fillStep p) d

/-- The body of the issue-attribution loop with Python raising made explicit:
`issue.get('file', file_names[0])` evaluates `file_names[0]` eagerly, so an
empty `fileNames` raises `IndexError` as soon as any issue is processed. -/
def distribStepM (fileNames : List String) (d : List (String × Bundle))
    (i : Issue) : Except PyErr (List (String × Bundle)) := do
  let d0 ←
    match fileNames with
    | [] => Except.error PyErr.indexError
    | n :: _ => Except.ok n
  let t := i.file.getD d0
  if dcontains d t then pure (dmodify d t (applyIssue i)) else pure d

/-- The body of the baseline-fill loop with Python raising made explicit:
`result[file_name]` raises `KeyError` on a missing key (it never actually
does, keys are initialised from the same name list). -/
def fillStepM (p : Int) (d : List (String × Bundle)) (n : String) :
    Except PyErr (List (String × Bundle)) :=
  match dget? d n with
  | none => Except.error PyErr.keyError
  | some b =>
    if b.passedChecks = 0 then
      pure (dmodify d n (fun b => { b with passedChecks := p }))
    else pure d

/-- Shallow embedding of `FileProcessor._distribute_issues_across_files`.
`passed_per_file = passedChecks // total_files` raises `ZeroDivisionError`
when the list is empty (the computation is unconditional in the source);
`Int.fdiv` is Python's floor division `//`. -/
def distributeIssuesAcrossFiles (ar : AnalysisResult) (fileNames : List String) :
    Except PyErr (List (String × Bundle)) := do
  let result := initBundles fileNames
  let result ←
    if ar.issues.isEmpty then pure result
    else ar.issues.foldlM (distribStepM fileNames) result
  match fileNames.length with
  | 0 => Except.error PyErr.zeroDivisionError
  | Nat.succ k =>
    let passedPerFile : Int := Int.fdiv ar.passedChecks (Nat.succ k : Nat)
    fileNames.foldlM (fillStepM passedPerFile) result

/-- Shallow embedding of `FileProcessor._generate_mock_analysis`
(file_processor.py lines 81-130); `file_names[0]` raises on an empty list. -/
def generateMockAnalysis (fileNames : List String) :
    Except PyErr AnalysisResult :=
  match fileNames with
  | [] => Except.error PyErr.indexError
  | n0 :: rest =>
    let base : List Issue :=
      [ { type := some "warning", file := some n0 },
        { type := some "suggestion", file := some n0 },
        { type := some "success", file := some n0 } ]
    match rest with
    | [] => Except.ok { passedChecks := 8, warnings := 2, errors := 0, issues := base }
    | n1 :: _ =>
      Except.ok
        { passedChecks := 8, warnings := 2, errors := 1,
          issues := base ++ [{ type := some "error", file := some n1 }] }

/-! ### The Session/File Registry (python_storage.py, MemStorage)

`uuid.uuid4()` is modelled by a fresh-id counter and `datetime.utcnow()` by a
logical clock, both carried in the store; timestamps are `Nat`. -/

structure Session where
  id : Nat
  status : String
  totalFiles : Nat
  processedFiles : Nat
  createdAt : Nat
  completedAt : Option Nat
deriving DecidableEq

structure FileRec where
  id : Nat
  sessionId : Nat
  fileName : String
  fileSize : Nat
  fileType : String
  s3Key : String
  status : String
  analysisResult : Option Bundle
  createdAt : Nat
  completedAt : Option Nat
deriving DecidableEq

structure AnalysisSessionCreate where
  status : String
  totalFiles : Nat
  processedFiles : Nat
deriving DecidableEq

structure FileAnalysisCreate where
  sessionId : Nat
  fileName : String
  fileSize : Nat
  fileType : String
  s3Key : String
  status : String
deriving DecidableEq

/-- A partial-update dict for `update_analysis_session`.  A field is `none`
when the key is absent; `completedAt = some x` means the key is present with
value `x` (Python distinguishes a missing key from an explicit `None`).
Only the keys the handlers and orchestrator actually send are modelled. -/
structure SessUpd where
  status : Option String := none
  processedFiles : Option Nat := none
  completedAt : Option (Option Nat) := none
deriving DecidableEq

/-- A partial-update dict for `update_file_analysis`. -/
structure FileUpd where
  status : Option String := none
  analysisResult : Option (Option Bundle) := none
  completedAt : Option (Option Nat) := none
deriving DecidableEq

/-- `session_data.update(updates)` followed by the conditional completedAt
stamp (python_storage.py lines 103-110): if the update's `status` is
`completed` and the original `completedAt` is falsy, set it to now. -/
def applySessUpd (s : Session) (u : SessUpd) (now : Nat) : Session :=
  let merged : Session :=
    { s with
      status := u.status.getD s.status
      processedFiles := u.processedFiles.getD s.processedFiles
      completedAt := u.completedAt.getD s.completedAt }
  if u.status = some "completed" ∧ s.completedAt = none then
    { merged with completedAt := some now }
  else merged

/-- Same merge semantics for file records (python_storage.py lines 152-159). -/
def applyFileUpd (f : FileRec) (u : FileUpd) (now : Nat) : FileRec :=
  let merged : FileRec :=
    { f with
      status := u.status.getD f.status
      analysisResult := u.analysisResult.getD f.analysisResult
      completedAt := u.completedAt.getD f.completedAt }
  if u.status = some "completed" ∧ f.completedAt = none then
    { merged with completedAt := some now }
  else merged

structure Store where
  sessions : List (Nat × Session)
  files : List (Nat × FileRec)
  counter : Nat
  clock : Nat
deriving DecidableEq

def emptyStore : Store := { sessions := [], files := [], counter := 0, clock := 0 }

/-- `MemStorage.create_analysis_session` (lines 81-92); `session.status or
'pending'` is string truthiness. -/
def createAnalysisSession (st : Store) (c : AnalysisSessionCreate) : Store × Session :=
  let sid := st.counter
  let s : Session :=
    { id := sid
      status := if c.status = "" then "pending" else c.status
      totalFiles := c.totalFiles
      processedFiles := c.processedFiles
      createdAt := st.clock
      completedAt := none }
  ({ st with
      sessions := dinsert st.sessions sid s
      counter := st.counter + 1
      clock := st.clock + 1 },
   s)

def getAnalysisSession (st : Store) (id : Nat) : Option Session :=
  dget? st.sessions id

/-- `MemStorage.update_analysis_session` (lines 97-112); `utcnow` is consumed
(and the clock advanced) only when the completedAt stamp fires. -/
def updateAnalysisSession (st : Store) (id : Nat) (u : SessUpd) :
    Store × Option Session :=
  match dget? st.sessions id with
  | none => (st, none)
  | some s =>
    let s' := applySessUpd s u st.clock
    ({ st with
        sessions := dinsert st.sessions id s'
        clock :=
          if u.status = some "completed" ∧ s.completedAt = none then st.clock + 1
          else st.clock },
     some s')

/-- `MemStorage.create_file_analysis` (lines 114-129). -/
def createFileAnalysis (st : Store) (c : FileAnalysisCreate) : Store × FileRec :=
  let fid := st.counter
  let f : FileRec :=
    { id := fid
      sessionId := c.sessionId
      fileName := c.fileName
      fileSize := c.fileSize
      fileType := c.fileType
      s3Key := c.s3Key
      status := if c.status = "" then "uploading" else c.status
      analysisResult := none
      createdAt := st.clock
      completedAt := none }
  ({ st with
      files := dinsert st.files fid f
      counter := st.counter + 1
      clock := st.clock + 1 },
   f)

/-- `MemStorage.get_file_analysis_by_session` (lines 134-138): iterate the
dict's values in insertion order and filter by owning session. -/
def getFileAnalysisBySession (st : Store) (sid : Nat) : List FileRec :=
  (st.files.map (·.2)).filter (fun f => decide (f.sessionId = sid))

/-- `MemStorage.update_file_analysis` (lines 146-161). -/
def updateFileAnalysis (st : Store) (id : Nat) (u : FileUpd) :
    Store × Option FileRec :=
  match dget? st.files id with
  | none => (st, none)
  | some f =>
    let f' := applyFileUpd f u st.clock
    ({ st with
        files := dinsert st.files id f'
        clock :=
          if u.status = some "completed" ∧ f.completedAt = none then st.clock + 1
          else st.clock },
     some f')

/-- Registry well-formedness: dict keys are distinct, each record stores its
own key as `id`, and every allocated id is below the fresh-id counter (the
uuid-freshness assumption). -/
structure WF (st : Store) : Prop where
  sessNodup : (st.sessions.map (·.1)).Nodup
  sessId : ∀ p ∈ st.sessions, p.2.id = p.1
  sessLt : ∀ p ∈ st.sessions, p.1 < st.counter
  filesNodup : (st.files.map (·.1)).Nodup
  fileId : ∀ p ∈ st.files, p.2.id = p.1
  fileLt : ∀ p ∈ st.files, p.1 < st.counter
  fileSessLt : ∀ p ∈ st.files, p.2.sessionId < st.counter

/-! ### The Pipeline Orchestrator (file_processor.py, FileProcessor) -/

/-- Calls made to external collaborators during a run.  `s3Get` is a content
fetch through the Object Store Adapter (`AwsService.get_file_from_s3`);
`analyzeCall` is an invocation of the analysis generator with the list of
file names it receives. -/
inductive Ev where
  | s3Get (key : String)
  | analyzeCall (fileNames : List String)
deriving DecidableEq

inductive RunErr where
  | noFiles
  | py (e : PyErr)
deriving DecidableEq

/-- `FileProcessor._process_file` (lines 70-79): two observational status
updates; the `asyncio.sleep` has no registry effect. -/
def processFile (st : Store) (fid : Nat) : Store :=
  let st := (updateFileAnalysis st fid { status := some "processing" }).1
  (updateFileAnalysis st fid { status := some "analyzing" }).1

/-- `FileProcessor.process_session` (lines 13-68).  The returned trace lists
the external-collaborator calls the run performed, in order.  The
`try/except` wrapper is modelled by the error branches: on any escaping
exception the session status is set to `error` and the exception re-raised. -/
def processSession (st : Store) (sid : Nat) :
    Store × List Ev × Except RunErr Unit :=
  let files := getFileAnalysisBySession st sid
  match files with
  | [] =>
    let st := (updateAnalysisSession st sid { status := some "error" }).1
    (st, [], Except.error RunErr.noFiles)
  | _ :: _ =>
    let st := (updateAnalysisSession st sid { status := some "processing" }).1
    let st := files.foldl (fun s f => processFile s f.id) st
    match generateMockAnalysis (files.map (·.fileName)) with
    | Except.error e =>
      let st := (updateAnalysisSession st sid { status := some "error" }).1
      (st, [], Except.error (RunErr.py e))
    | Except.ok mock =>
      let tr := [Ev.analyzeCall (files.map (·.fileName))]
      match distributeIssuesAcrossFiles mock (files.map (·.fileName)) with
      | Except.error e =>
        let st := (updateAnalysisSession st sid { status := some "error" }).1
        (st, tr, Except.error (RunErr.py e))
      | Except.ok perFile =>
        let st :=
          files.foldl
            (fun s f =>
              let r := (dget? perFile f.fileName).getD emptyBundle
              (updateFileAnalysis s f.id
                { status := some "completed", analysisResult := some (some r) }).1)
            st
        let st :=
          (updateAnalysisSession st sid
            { status := some "completed", processedFiles := some files.length }).1
        (st, tr, Except.ok ())

/-! ### HTTP handlers (main.py) -/

/-- A multipart upload entry.  `filename` and `contentType` are optional in
FastAPI (`UploadFile.filename : Optional[str]`); `content` stands for the
uploaded bytes, its length being the file size. -/
structure UploadFile where
  filename : Option String
  content : String
  contentType : Option String
deriving DecidableEq

/-- Python truthiness of `file.filename`: `None` and `''` are falsy. -/
def truthyName : Option String → Bool
  | none => false
  | some s => !(s = "")

/-- ASCII lower-casing of one character (the behaviour of Python's
`str.lower` on the ASCII file names at issue). -/
def lowerChar (c : Char) : Char :=
  if 65 ≤ c.toNat ∧ c.toNat ≤ 90 then Char.ofNat (c.toNat + 32) else c

/-- Python's `str.lower`. -/
def pyLower (s : String) : String := ⟨s.data.map lowerChar⟩

/-- Python's `str.endswith`: the last `|suffix|` characters equal the
suffix. -/
def pyEndsWith (s suffix : String) : Bool :=
  decide (s.data.reverse.take suffix.data.length = suffix.data.reverse)

def validExtensions : List String :=
  [".js", ".jsx", ".ts", ".tsx", ".py", ".java", ".cpp", ".c", ".go"]

/-- `any(file.filename.lower().endswith(ext) for ext in valid_extensions)`
(main.py line 94). -/
def hasValidExtension (name : String) : Bool :=
  validExtensions.any (fun ext => pyEndsWith (pyLower name) ext)

/-- `sessions/{session_id}/{timestamp}-{filename}` (aws_service.py line 42). -/
def s3KeyFor (sid : Nat) (t : Nat) (name : String) : String :=
  "sessions/" ++ toString sid ++ "/" ++ toString t ++ "-" ++ name

inductive UploadResp where
  | err400NoFiles
  | err400Invalid (names : List String)
  | ok (sessionId : Nat)
deriving DecidableEq

/-- The body of the per-file upload loop for a file with truthy name
(main.py lines 117-127): simulate the S3 put (which only mints the key) and
create the file record. -/
def uploadOne (st : Store) (sid : Nat) (name : String) (f : UploadFile) : Store :=
  let key := s3KeyFor sid st.clock name
  let st := { st with clock := st.clock + 1 }
  (createFileAnalysis st
    { sessionId := sid
      fileName := name
      fileSize := f.content.length
      fileType :=
        match f.contentType with
        | none => "application/octet-stream"
        | some ct => if ct = "" then "application/octet-stream" else ct
      s3Key := key
      status := "uploaded" }).1

/-- `upload_files` (main.py lines 77-138), up to the point where the
background `process_session` task is scheduled (the run itself is a separate
step composed after this function). -/
def uploadFiles (st : Store) (files : List UploadFile) : Store × UploadResp :=
  if files.isEmpty then (st, UploadResp.err400NoFiles)
  else
    let invalid :=
      (files.filter
        (fun f => truthyName f.filename && !hasValidExtension (f.filename.getD ""))).map
        (fun f => f.filename.getD "")
    if !invalid.isEmpty then (st, UploadResp.err400Invalid invalid)
    else
      let (st, session) :=
        createAnalysisSession st
          { status := "pending", totalFiles := files.length, processedFiles := 0 }
      let st :=
        files.foldl
          (fun s f =>
            if truthyName f.filename then uploadOne s session.id (f.filename.getD "") f
            else s)
          st
      let st := (updateAnalysisSession st session.id { status := some "processing" }).1
      (st, UploadResp.ok session.id)

/-- Response shape of `get_analysis_status` (main.py lines 171-181); the
constant `uploadTime` float is not modelled. -/
structure StatusResp where
  status : String
  totalFiles : Nat
  processedFiles : Nat
  totalSize : Nat
  uploadCompleted : Bool
  lambdaCompleted : Bool
  ecsCompleted : Bool
  bedrockCompleted : Bool
deriving DecidableEq

/-- `get_analysis_status` (main.py lines 154-181); `Except.error 404` models
the 404 response for an unknown session. -/
def getAnalysisStatus (st : Store) (sid : Nat) : Except Nat StatusResp :=
  match dget? st.sessions sid with
  | none => Except.error 404
  | some session =>
    let files := getFileAnalysisBySession st sid
    Except.ok
      { status := session.status
        totalFiles := session.totalFiles
        processedFiles := session.processedFiles
        totalSize := (files.map (·.fileSize)).sum
        uploadCompleted := files.all (fun f => !(f.status = "uploading"))
        lambdaCompleted :=
          files.all (fun f => f.status = "processing" || f.status = "completed")
        ecsCompleted :=
          files.all (fun f => f.status = "analyzing" || f.status = "completed")
        bedrockCompleted := session.status = "completed" }

/-- `reanalyze_session` (main.py lines 278-307) up to scheduling the fresh
run: reset the session, then reset every owned file record. -/
def reanalyzeSession (st : Store) (sid : Nat) : Store × Except Nat Unit :=
  match dget? st.sessions sid with
  | none => (st, Except.error 404)
  | some _ =>
    let st :=
      (updateAnalysisSession st sid
        { status := some "processing", processedFiles := some 0,
          completedAt := some none }).1
    let files := getFileAnalysisBySession st sid
    let st :=
      files.foldl
        (fun s f =>
          (updateFileAnalysis s f.id
            { status := some "uploaded", analysisResult := some none,
              completedAt := some none }).1)
        st
    (st, Except.ok ())

/-! ### Specification-side definitions used to state the claims -/

/-- What the reanalysis reset should do to one owned file record, per the
spec: status back to `uploaded`, results and completion cleared, all other
fields untouched. -/
def resetFileRec (f : FileRec) : FileRec :=
  { f with status := "uploaded", analysisResult := none, completedAt := none }

/-- Position of a status in the per-file sub-state machine
`uploaded → processing → analyzing → completed` (spec section 4.2). -/
def stageIdx : String → Option Nat
  | "uploaded" => some 0
  | "processing" => some 1
  | "analyzing" => some 2
  | "completed" => some 3
  | _ => none

/-- A file has passed a given sub-state when its status sits strictly beyond
that sub-state in the per-file state machine. -/
def hasPassedStage (f : FileRec) (k : Nat) : Bool :=
  match stageIdx f.status with
  | none => false
  | some i => k < i

/-- The issues of an aggregate result attributed to a file of the session:
those whose resolved target (own `file` field, else the first session file
name `d0`) is one of the session's file names, and whose `type` is `ty`. -/
def attributedCount (ty : String) (ar : AnalysisResult) (d0 : String)
    (fileNames : List String) : Nat :=
  (ar.issues.filter
    (fun i => decide (i.file.getD d0 ∈ fileNames) && decide (i.type = some ty))).length

/-- The sessions-registry update payloads actually issued by the handlers
and the orchestrator (main.py and file_processor.py). -/
def procPayload : SessUpd := { status := some "processing" }

def resetPayload : SessUpd :=
  { status := some "processing", processedFiles := some 0, completedAt := some none }

def runCompletedPayload (n : Nat) : SessUpd :=
  { status := some "completed", processedFiles := some n }

def errPayload : SessUpd := { status := some "error" }

/-- A freshly created session record (`create_analysis_session` with the
upload handler's arguments). -/
def newSession (sid t clk : Nat) : Session :=
  { id := sid, status := "pending", totalFiles := t, processedFiles := 0,
    createdAt := clk, completedAt := none }

/-- Phase of a session's sequential lifecycle: just created by the upload
handler, a run triggered (scheduled or executing), or no run in flight. -/
inductive Ph where
  | created
  | running
  | idle
deriving DecidableEq

/-- Session states reachable through the sequences of registry operations the
handlers and the orchestrator actually issue, in the sequential (one run per
session at a time) model the spec prescribes: creation, the upload handler's
`processing` update, the run's own `processing` update, the run's terminal
`completed`/`error` update, and the reanalysis reset. -/
inductive Reach : Ph → Session → Prop where
  | create (sid t clk : Nat) : Reach Ph.created (newSession sid t clk)
  | uploadTrigger {s : Session} (now : Nat) :
      Reach Ph.created s → Reach Ph.running (applySessUpd s procPayload now)
  | runSetProc {s : Session} (now : Nat) :
      Reach Ph.running s → Reach Ph.running (applySessUpd s procPayload now)
  | runOk {s : Session} (n now : Nat) :
      Reach Ph.running s → Reach Ph.idle (applySessUpd s (runCompletedPayload n) now)
  | runFail {s : Session} (now : Nat) :
      Reach Ph.running s → Reach Ph.idle (applySessUpd s errPayload now)
  | reanalyze {s : Session} (now : Nat) :
      Reach Ph.idle s → Reach Ph.running (applySessUpd s resetPayload now)

/-- The session invariant of the spec: `completedAt` is non-null exactly on
completed sessions. -/
def goodSession (s : Session) : Prop :=
  s.completedAt ≠ none ↔ s.status = "completed"

/-- An uploaded file record owned by session 0, with its object-store key. -/
def cexFile : FileRec :=
  { id := 1, sessionId := 0, fileName := "a.js", fileSize := 1,
    fileType := "text/plain", s3Key := "sessions/0/0-a.js",
    status := "uploaded", analysisResult := none, createdAt := 1,
    completedAt := none }

/-- Concrete registry used to exercise the orchestrator: one `processing`
session (id 0) owning one uploaded file (id 1). -/
def cexStore : Store :=
  { sessions :=
      [(0, { id := 0, status := "processing", totalFiles := 1,
             processedFiles := 0, createdAt := 0, completedAt := none })],
    files := [(1, cexFile)],
    counter := 2, clock := 2 }

/-- A `processing` session record with one file, used by the status-endpoint
examples. -/
def c6Sess : Session :=
  { id := 0, status := "processing", totalFiles := 1, processedFiles := 0,
    createdAt := 0, completedAt := none }

/-- Concrete registry whose single owned file sits in the `analyzing`
sub-state. -/
def c6Store : Store :=
  { sessions := [(0, c6Sess)],
    files :=
      [(1, { id := 1, sessionId := 0, fileName := "a.js", fileSize := 7,
             fileType := "text/plain", s3Key := "k", status := "analyzing",
             analysisResult := none, createdAt := 1, completedAt := none })],
    counter := 2, clock := 2 }

/-- A `processing` session record that owns no files. -/
def c7Sess : Session :=
  { id := 0, status := "processing", totalFiles := 2, processedFiles := 0,
    createdAt := 0, completedAt := none }

/-- Concrete registry with one session and no file records at all. -/
def c7Store : Store :=
  { sessions := [(0, c7Sess)], files := [], counter := 1, clock := 1 }

/-- The aggregate of the spec's Scenario A. -/
def c2Agg : AnalysisResult :=
  { passedChecks := 8, warnings := 1, errors := 1,
    issues := [{ type := some "warning", file := some "a.js" },
               { type := some "error", file := some "b.py" }] }

/-- The bundle Scenario A produces for `a.js`. -/
def c2BundleA : Bundle :=
  { passedChecks := 4, warnings := 1, errors := 0,
    issues := [{ type := some "warning", file := some "a.js" }] }

/-- The bundle Scenario A produces for `b.py`. -/
def c2BundleB : Bundle :=
  { passedChecks := 4, warnings := 0, errors := 1,
    issues := [{ type := some "error", file := some "b.py" }] }

/-! ## Lemmas about the dictionary model -/

theorem dcontains_cons {κ α : Type} [DecidableEq κ] (a : κ) (b : α) (d : List (κ × α))
    (k : κ) : dcontains ((a, b) :: d) k = (decide (a = k) || dcontains d k) := by
  simp [dcontains]

theorem dget?_cons {κ α : Type} [DecidableEq κ] (a : κ) (b : α) (d : List (κ × α))
    (k : κ) : dget? ((a, b) :: d) k = if a = k then some b else dget? d k := by
  by_cases h : a = k <;> simp [dget?, List.find?_cons, h]

theorem dmodify_cons {κ α : Type} [DecidableEq κ] (a : κ) (b : α) (d : List (κ × α))
    (k : κ) (f : α → α) :
    dmodify ((a, b) :: d) k f
      = (if a = k then (a, f b) else (a, b)) :: dmodify d k f := by
  by_cases h : a = k <;> simp [dmodify, h]

theorem dcontains_iff {κ α : Type} [DecidableEq κ] (d : List (κ × α)) (k : κ) :
    dcontains d k = true ↔ ∃ p ∈ d, p.1 = k := by
  simp [dcontains, List.any_eq_true]

theorem dcontains_eq_false_iff {κ α : Type} [DecidableEq κ] (d : List (κ × α)) (k : κ) :
    dcontains d k = false ↔ ∀ p ∈ d, p.1 ≠ k := by
  rw [← Bool.not_eq_true, dcontains_iff]
  push_neg
  rfl

theorem dkeys_dmodify {κ α : Type} [DecidableEq κ] (d : List (κ × α)) (k : κ)
    (f : α → α) : dkeys (dmodify d k f) = dkeys d := by
  induction d with
  | nil => rfl
  | cons p d ih =>
    obtain ⟨a, b⟩ := p
    by_cases h : a = k <;> simp [dmodify_cons, h, dkeys] at ih ⊢ <;> exact ih

theorem dkeys_cons {κ α : Type} (a : κ) (b : α) (d : List (κ × α)) :
    dkeys ((a, b) :: d) = a :: dkeys d := rfl

theorem dcontains_eq_keys {κ α : Type} [DecidableEq κ] (d : List (κ × α)) (k : κ) :
    dcontains d k = (dkeys d).any (fun x => decide (x = k)) := by
  induction d with
  | nil => rfl
  | cons p d ih =>
    obtain ⟨a, b⟩ := p
    rw [dcontains_cons, dkeys_cons, List.any_cons, ih]

theorem dcontains_dmodify {κ α : Type} [DecidableEq κ] (d : List (κ × α)) (k k' : κ)
    (f : α → α) : dcontains (dmodify d k f) k' = dcontains d k' := by
  rw [dcontains_eq_keys, dcontains_eq_keys, dkeys_dmodify]

theorem dmodify_of_not_contains {κ α : Type} [DecidableEq κ] {d : List (κ × α)} {k : κ}
    (f : α → α) (h : dcontains d k = false) : dmodify d k f = d := by
  induction d with
  | nil => rfl
  | cons p d ih =>
    obtain ⟨a, b⟩ := p
    simp only [dcontains_cons, Bool.or_eq_false_iff, decide_eq_false_iff_not] at h
    rw [dmodify_cons, if_neg h.1, ih h.2]

/-- Overwriting map form of an insert at an existing key. -/
theorem dget?_map_overwrite {κ α : Type} [DecidableEq κ] {d : List (κ × α)} {k : κ}
    (v : α) (h : dcontains d k = true) :
    dget? (d.map (fun p => if p.1 = k then (k, v) else p)) k = some v := by
  induction d with
  | nil => simp [dcontains] at h
  | cons p d ih =>
    obtain ⟨a, b⟩ := p
    by_cases ha : a = k
    · simp [ha, dget?_cons]
    · simp only [dcontains_cons, Bool.or_eq_true, decide_eq_true_eq] at h
      rcases h with h | h
      · exact absurd h ha
      · simpa [ha, dget?_cons] using ih h

theorem dget?_append_single {κ α : Type} [DecidableEq κ] {d : List (κ × α)} {k : κ}
    (v : α) (h : dcontains d k = false) : dget? (d ++ [(k, v)]) k = some v := by
  induction d with
  | nil => simp [dget?_cons]
  | cons p d ih =>
    obtain ⟨a, b⟩ := p
    simp only [dcontains_cons, Bool.or_eq_false_iff, decide_eq_false_iff_not] at h
    simpa [List.cons_append, dget?_cons, h.1] using ih h.2

theorem dget?_dinsert_self {κ α : Type} [DecidableEq κ] (d : List (κ × α)) (k : κ)
    (v : α) : dget? (dinsert d k v) k = some v := by
  by_cases h : dcontains d k = true
  · rw [dinsert, if_pos h]
    exact dget?_map_overwrite v h
  · rw [dinsert, if_neg h]
    exact dget?_append_single v (by simpa using h)

theorem dinsert_eq_map {κ α : Type} [DecidableEq κ] (d : List (κ × α)) (k : κ)
    (v : α) (h : dcontains d k = true) :
    dinsert d k v = d.map (fun p => if p.1 = k then (k, v) else p) := by
  rw [dinsert, if_pos h]

theorem dget?_dinsert_ne {κ α : Type} [DecidableEq κ] (d : List (κ × α)) {k k' : κ}
    (v : α) (h : k' ≠ k) : dget? (dinsert d k v) k' = dget? d k' := by
  by_cases hc : dcontains d k = true
  · rw [dinsert_eq_map d k v hc]
    clear hc
    induction d with
    | nil => rfl
    | cons p d ih =>
      obtain ⟨a, b⟩ := p
      by_cases ha : a = k
      · subst ha
        have hk' : ¬a = k' := fun hx => h hx.symm
        simp only [List.map_cons, eq_self_iff_true, if_true, dget?_cons,
          if_neg hk']
        exact ih
      · simp only [List.map_cons, if_neg ha, dget?_cons]
        by_cases ha' : a = k'
        · simp [ha']
        · simp only [if_neg ha']
          exact ih
  · rw [dinsert, if_neg hc]
    induction d with
    | nil => simp [dget?_cons, Ne.symm h]
    | cons p d ih =>
      obtain ⟨a, b⟩ := p
      simp only [dcontains_cons, Bool.or_eq_false_iff, decide_eq_false_iff_not,
        Bool.not_eq_true] at hc
      by_cases ha : a = k'
      · simp [List.cons_append, dget?_cons, ha]
      · simpa [List.cons_append, dget?_cons, ha] using
          ih (by simpa using hc.2)

theorem dkeys_map_overwrite {κ α : Type} [DecidableEq κ] (d : List (κ × α)) (k : κ)
    (v : α) :
    dkeys (d.map (fun p => if p.1 = k then (k, v) else p)) = dkeys d := by
  induction d with
  | nil => rfl
  | cons p d ih =>
    obtain ⟨a, b⟩ := p
    by_cases ha : a = k
    · subst ha
      simp only [List.map_cons, eq_self_iff_true, if_true, dkeys_cons, ih]
    · simp only [List.map_cons, if_neg ha, dkeys_cons, ih]

theorem dkeys_dinsert_of_contains {κ α : Type} [DecidableEq κ] (d : List (κ × α))
    (k : κ) (v : α) (h : dcontains d k = true) :
    dkeys (dinsert d k v) = dkeys d := by
  rw [dinsert_eq_map d k v h]
  exact dkeys_map_overwrite d k v

theorem dkeys_dinsert_of_not_contains {κ α : Type} [DecidableEq κ] (d : List (κ × α))
    (k : κ) (v : α) (h : dcontains d k = false) :
    dkeys (dinsert d k v) = dkeys d ++ [k] := by
  rw [dinsert, if_neg (by simp [h])]
  simp [dkeys]

theorem dget?_dmodify_self {κ α : Type} [DecidableEq κ] (d : List (κ × α)) (k : κ)
    (f : α → α) : dget? (dmodify d k f) k = (dget? d k).map f := by
  induction d with
  | nil => rfl
  | cons p d ih =>
    obtain ⟨a, b⟩ := p
    by_cases ha : a = k
    · simp [dmodify_cons, ha, dget?_cons]
    · simp [dmodify_cons, ha, dget?_cons, ih]

theorem dget?_dmodify_ne {κ α : Type} [DecidableEq κ] (d : List (κ × α)) {k k' : κ}
    (f : α → α) (h : k' ≠ k) : dget? (dmodify d k f) k' = dget? d k' := by
  induction d with
  | nil => rfl
  | cons p d ih =>
    obtain ⟨a, b⟩ := p
    by_cases ha : a = k
    · simp [dmodify_cons, ha, dget?_cons, Ne.symm h, ih]
    · by_cases ha' : a = k' <;>
        simp [dmodify_cons, ha, dget?_cons, ha', Ne.symm h, h, ih]

theorem not_mem_keys_of_dcontains_false {κ α : Type} [DecidableEq κ]
    {d : List (κ × α)} {k : κ} (h : dcontains d k = false) : k ∉ dkeys d := by
  rw [dcontains_eq_false_iff] at h
  intro hk
  simp only [dkeys, List.mem_map] at hk
  obtain ⟨p, hp, hpk⟩ := hk
  exact h p hp hpk

theorem dcontains_false_of_not_mem_keys {κ α : Type} [DecidableEq κ]
    {d : List (κ × α)} {k : κ} (h : k ∉ dkeys d) : dcontains d k = false := by
  rw [dcontains_eq_false_iff]
  intro p hp hpk
  refine h ?_
  simp only [dkeys, List.mem_map]
  exact ⟨p, hp, hpk⟩

theorem dkeys_nodup_dinsert {κ α : Type} [DecidableEq κ] (d : List (κ × α)) (k : κ)
    (v : α) (h : (dkeys d).Nodup) : (dkeys (dinsert d k v)).Nodup := by
  by_cases hc : dcontains d k = true
  · rw [dkeys_dinsert_of_contains d k v hc]
    exact h
  · rw [dkeys_dinsert_of_not_contains d k v (by simpa using hc)]
    have hk : k ∉ dkeys d := not_mem_keys_of_dcontains_false (by simpa using hc)
    simp [List.nodup_append, h, hk]

theorem dget?_eq_some_of_mem_nodup {κ α : Type} [DecidableEq κ] {d : List (κ × α)}
    {p : κ × α} (hnd : (dkeys d).Nodup) (hp : p ∈ d) : dget? d p.1 = some p.2 := by
  induction d with
  | nil => cases hp
  | cons q d ih =>
    obtain ⟨a, b⟩ := q
    rw [dkeys_cons, List.nodup_cons] at hnd
    rcases List.mem_cons.mp hp with hq | hq
    · subst hq
      simp [dget?_cons]
    · have hne : ¬a = p.1 := by
        intro hx
        exact hnd.1 (by simpa [dkeys, ← hx] using List.mem_map_of_mem (·.1) hq)
      simp [dget?_cons, hne, ih hnd.2 hq]

theorem mem_unique_of_nodup_keys {κ α : Type} [DecidableEq κ] {d : List (κ × α)}
    {p q : κ × α} (hnd : (dkeys d).Nodup) (hp : p ∈ d) (hq : q ∈ d)
    (hk : p.1 = q.1) : p = q := by
  have h1 := dget?_eq_some_of_mem_nodup hnd hp
  have h2 := dget?_eq_some_of_mem_nodup hnd hq
  rw [hk, h2] at h1
  exact Prod.ext hk.symm (by simpa using h1) |>.symm

theorem sum_map_dmodify_delta {κ α : Type} [DecidableEq κ] (g : α → Int)
    (f : α → α) (δ : Int) (hf : ∀ b, g (f b) = g b + δ) :
    ∀ (d : List (κ × α)) (k : κ), (dkeys d).Nodup → dcontains d k = true →
      ((dmodify d k f).map (fun p => g p.2)).sum
        = (d.map (fun p => g p.2)).sum + δ := by
  intro d
  induction d with
  | nil => intro k _ hc; simp [dcontains] at hc
  | cons p d ih =>
    intro k hnd hc
    obtain ⟨a, b⟩ := p
    rw [dkeys_cons, List.nodup_cons] at hnd
    by_cases ha : a = k
    · subst ha
      have htail : dcontains d a = false := dcontains_false_of_not_mem_keys hnd.1
      rw [dmodify_cons, if_pos rfl, dmodify_of_not_contains f htail]
      simp [hf b]
      ring
    · rw [dcontains_cons] at hc
      rcases Bool.or_eq_true _ _ |>.mp hc with hx | hx
      · exact absurd (by simpa using hx) ha
      · rw [dmodify_cons, if_neg ha]
        simp only [List.map_cons, List.sum_cons, ih k hnd.2 hx]
        ring

theorem sum_map_dmodify_invariant {κ α : Type} [DecidableEq κ] (g : α → Int)
    (f : α → α) (hf : ∀ b, g (f b) = g b) (d : List (κ × α)) (k : κ) :
    ((dmodify d k f).map (fun p => g p.2)).sum = (d.map (fun p => g p.2)).sum := by
  induction d with
  | nil => rfl
  | cons p d ih =>
    obtain ⟨a, b⟩ := p
    by_cases ha : a = k <;> simp [dmodify_cons, ha, hf, ih]

/-! ## Lemmas about the distribution algorithm -/

theorem dcontains_dinsert {κ α : Type} [DecidableEq κ] (d : List (κ × α)) (n k : κ)
    (v : α) : dcontains (dinsert d n v) k = (dcontains d k || decide (n = k)) := by
  by_cases hc : dcontains d n = true
  · rw [dcontains_eq_keys, dkeys_dinsert_of_contains d n v hc, ← dcontains_eq_keys]
    by_cases hnk : n = k
    · subst hnk
      simp [hc]
    · simp [hnk]
  · rw [dcontains_eq_keys, dkeys_dinsert_of_not_contains d n v (by simpa using hc),
      List.any_append, ← dcontains_eq_keys]
    simp

theorem dcontains_foldl_dinsert {κ α : Type} [DecidableEq κ] (v : α) :
    ∀ (l : List κ) (d : List (κ × α)) (k : κ),
      dcontains (l.foldl (fun d n => dinsert d n v) d) k
        = (dcontains d k || decide (k ∈ l)) := by
  intro l
  induction l with
  | nil => simp
  | cons n l ih =>
    intro d k
    rw [List.foldl_cons, ih, dcontains_dinsert]
    by_cases hnk : n = k
    · subst hnk
      simp
    · simp [hnk, Ne.symm hnk]

theorem dcontains_initBundles (names : List String) (k : String) :
    dcontains (initBundles names) k = decide (k ∈ names) := by
  rw [initBundles, dcontains_foldl_dinsert]
  rfl

theorem dkeys_nodup_foldl_dinsert {κ α : Type} [DecidableEq κ] (v : α) :
    ∀ (l : List κ) (d : List (κ × α)), (dkeys d).Nodup →
      (dkeys (l.foldl (fun d n => dinsert d n v) d)).Nodup := by
  intro l
  induction l with
  | nil => intro d h; exact h
  | cons n l ih =>
    intro d h
    exact ih (dinsert d n v) (dkeys_nodup_dinsert d n v h)

theorem initBundles_nodup (names : List String) : (dkeys (initBundles names)).Nodup :=
  dkeys_nodup_foldl_dinsert emptyBundle names [] (by simp [dkeys])

theorem mem_dinsert {κ α : Type} [DecidableEq κ] {d : List (κ × α)} {k : κ} {v : α}
    {p : κ × α} (hp : p ∈ dinsert d k v) : p ∈ d ∨ p = (k, v) := by
  by_cases hc : dcontains d k = true
  · rw [dinsert_eq_map d k v hc] at hp
    obtain ⟨q, hq, hqe⟩ := List.mem_map.mp hp
    by_cases hqk : q.1 = k
    · right
      rw [← hqe, if_pos hqk]
    · left
      rwa [← hqe, if_neg hqk]
  · rw [dinsert, if_neg (by simpa using hc)] at hp
    rcases List.mem_append.mp hp with h | h
    · exact Or.inl h
    · exact Or.inr (by simpa using h)

theorem initBundles_values (names : List String) :
    ∀ p ∈ initBundles names, p.2 = emptyBundle := by
  suffices h : ∀ (l : List String) (d : List (String × Bundle)),
      (∀ p ∈ d, p.2 = emptyBundle) →
      ∀ p ∈ l.foldl (fun d n => dinsert d n emptyBundle) d, p.2 = emptyBundle by
    exact h names [] (by simp)
  intro l
  induction l with
  | nil => intro d h; exact h
  | cons n l ih =>
    intro d h
    refine ih (dinsert d n emptyBundle) ?_
    intro p hp
    rcases mem_dinsert hp with h' | h'
    · exact h p h'
    · rw [h']

theorem sum_initBundles (g : Bundle → Int) (hg : g emptyBundle = 0)
    (names : List String) :
    ((initBundles names).map (fun p => g p.2)).sum = 0 := by
  refine List.sum_eq_zero ?_
  intro x hx
  obtain ⟨p, hp, hpe⟩ := List.mem_map.mp hx
  rw [← hpe, initBundles_values names p hp, hg]

theorem dkeys_distribStep (d0 : String) (d : List (String × Bundle)) (i : Issue) :
    dkeys (distribStep d0 d i) = dkeys d := by
  rw [distribStep]
  by_cases hc : dcontains d (i.file.getD d0) = true
  · simp only [if_pos hc, dkeys_dmodify]
  · simp only [if_neg hc]

theorem dkeys_issuePhase (d0 : String) :
    ∀ (issues : List Issue) (d : List (String × Bundle)),
      dkeys (issuePhase d0 issues d) = dkeys d := by
  intro issues
  induction issues with
  | nil => intro d; rfl
  | cons i is ih =>
    intro d
    rw [issuePhase, List.foldl_cons, ← issuePhase, ih, dkeys_distribStep]

theorem dcontains_issuePhase (d0 : String) (issues : List Issue)
    (d : List (String × Bundle)) (k : String) :
    dcontains (issuePhase d0 issues d) k = dcontains d k := by
  rw [dcontains_eq_keys, dkeys_issuePhase, ← dcontains_eq_keys]

theorem fillStep_none {d : List (String × Bundle)} {n : String} (p : Int)
    (h : dget? d n = none) : fillStep p d n = d := by
  unfold fillStep
  rw [h]

theorem fillStep_some_zero {d : List (String × Bundle)} {n : String} {b : Bundle}
    (p : Int) (h : dget? d n = some b) (hb : b.passedChecks = 0) :
    fillStep p d n = dmodify d n (fun b => { b with passedChecks := p }) := by
  unfold fillStep
  rw [h]
  exact if_pos hb

theorem fillStep_some_ne {d : List (String × Bundle)} {n : String} {b : Bundle}
    (p : Int) (h : dget? d n = some b) (hb : ¬b.passedChecks = 0) :
    fillStep p d n = d := by
  unfold fillStep
  rw [h]
  exact if_neg hb

theorem dkeys_fillStep (p : Int) (d : List (String × Bundle)) (n : String) :
    dkeys (fillStep p d n) = dkeys d := by
  rcases hg : dget? d n with _ | b
  · rw [fillStep_none p hg]
  · by_cases hb : b.passedChecks = 0
    · rw [fillStep_some_zero p hg hb, dkeys_dmodify]
    · rw [fillStep_some_ne p hg hb]

theorem dkeys_fillPhase (p : Int) :
    ∀ (names : List String) (d : List (String × Bundle)),
      dkeys (fillPhase p names d) = dkeys d := by
  intro names
  induction names with
  | nil => intro d; rfl
  | cons n names ih =>
    intro d
    rw [fillPhase, List.foldl_cons, ← fillPhase, ih, dkeys_fillStep]

theorem dget?_isSome_of_dcontains {κ α : Type} [DecidableEq κ] :
    ∀ {d : List (κ × α)} {k : κ}, dcontains d k = true → ∃ b, dget? d k = some b := by
  intro d
  induction d with
  | nil => intro k h; simp [dcontains] at h
  | cons p d ih =>
    intro k h
    obtain ⟨a, b⟩ := p
    by_cases ha : a = k
    · exact ⟨b, by simp [dget?_cons, ha]⟩
    · rw [dcontains_cons] at h
      rcases Bool.or_eq_true _ _ |>.mp h with hx | hx
      · exact absurd (by simpa using hx) ha
      · obtain ⟨b', hb'⟩ := ih hx
        exact ⟨b', by simp [dget?_cons, ha, hb']⟩

theorem issuePhase_cons (d0 : String) (i : Issue) (is : List Issue)
    (d : List (String × Bundle)) :
    issuePhase d0 (i :: is) d = issuePhase d0 is (distribStep d0 d i) := rfl

/-- Counting invariant of the attribution loop: for a counter projection `g`
bumped exactly by issues of type `ty`, the final total over all bundles is
the initial total plus the number of issues of that type whose resolved
target is a known key. -/
theorem issuePhase_sum (g : Bundle → Int) (ty : String)
    (hg : ∀ b i, g (applyIssue i b) = g b + (if i.type = some ty then 1 else 0)) :
    ∀ (issues : List Issue) (d0 : String) (d : List (String × Bundle)),
      (dkeys d).Nodup →
      ((issuePhase d0 issues d).map (fun p => g p.2)).sum
        = (d.map (fun p => g p.2)).sum
          + ((issues.filter
              (fun i => dcontains d (i.file.getD d0)
                && decide (i.type = some ty))).length : Int) := by
  intro issues
  induction issues with
  | nil => intro d0 d _; simp [issuePhase]
  | cons i is ih =>
    intro d0 d hnd
    rw [issuePhase_cons]
    by_cases hc : dcontains d (i.file.getD d0) = true
    · have hstep : distribStep d0 d i = dmodify d (i.file.getD d0) (applyIssue i) := by
        rw [distribStep, if_pos hc]
      have hnd' : (dkeys (distribStep d0 d i)).Nodup := by
        rw [dkeys_distribStep]; exact hnd
      rw [ih d0 (distribStep d0 d i) hnd']
      have hcontains : ∀ x ∈ is,
          (dcontains (distribStep d0 d i) (x.file.getD d0)
              && decide (x.type = some ty))
            = (dcontains d (x.file.getD d0) && decide (x.type = some ty)) := by
        intro x _
        rw [hstep, dcontains_dmodify]
      rw [List.filter_congr hcontains, hstep,
        sum_map_dmodify_delta g (applyIssue i) (if i.type = some ty then 1 else 0)
          (fun b => hg b i) d (i.file.getD d0) hnd hc,
        List.filter_cons]
      by_cases hty : i.type = some ty
      · have hcond :
            (dcontains d (i.file.getD d0) && decide (i.type = some ty)) = true := by
          simp [hc, hty]
        rw [if_pos hcond, if_pos hty, List.length_cons]
        push_cast
        ring
      · have hcond :
            ¬(dcontains d (i.file.getD d0) && decide (i.type = some ty)) = true := by
          simp [hty]
        rw [if_neg hcond, if_neg hty]
        ring
    · have hstep : distribStep d0 d i = d := by
        rw [distribStep, if_neg hc]
      rw [hstep, ih d0 d hnd, List.filter_cons,
        if_neg (by simp [Bool.and_eq_true]; intro hx; exact absurd hx hc)]

/-- The baseline fill touches only `passedChecks`, so any projection ignoring
that field keeps its total. -/
theorem fillPhase_sum_invariant (g : Bundle → Int)
    (hg : ∀ b p, g { b with passedChecks := p } = g b) (p : Int) :
    ∀ (names : List String) (d : List (String × Bundle)),
      ((fillPhase p names d).map (fun q => g q.2)).sum
        = (d.map (fun q => g q.2)).sum := by
  intro names
  induction names with
  | nil => intro d; rfl
  | cons n names ih =>
    intro d
    rw [fillPhase, List.foldl_cons, ← fillPhase, ih]
    rcases hget : dget? d n with _ | b
    · rw [fillStep_none p hget]
    · by_cases hb : b.passedChecks = 0
      · rw [fillStep_some_zero p hget hb]
        exact sum_map_dmodify_invariant g _ (fun b => hg b p) d n
      · rw [fillStep_some_ne p hget hb]

theorem distribStepM_cons (n0 : String) (rest : List String)
    (d : List (String × Bundle)) (i : Issue) :
    distribStepM (n0 :: rest) d i = Except.ok (distribStep n0 d i) := by
  show (if dcontains d (i.file.getD n0) = true
      then (pure (dmodify d (i.file.getD n0) (applyIssue i))
        : Except PyErr (List (String × Bundle)))
      else pure d)
    = Except.ok (distribStep n0 d i)
  by_cases hc : dcontains d (i.file.getD n0) = true
  · rw [if_pos hc]
    show _ = Except.ok (if dcontains d (i.file.getD n0) = true
        then dmodify d (i.file.getD n0) (applyIssue i) else d)
    rw [if_pos hc]
    rfl
  · rw [if_neg hc]
    show _ = Except.ok (if dcontains d (i.file.getD n0) = true
        then dmodify d (i.file.getD n0) (applyIssue i) else d)
    rw [if_neg hc]
    rfl

theorem foldlM_distribStepM (n0 : String) (rest : List String) :
    ∀ (issues : List Issue) (d : List (String × Bundle)),
      issues.foldlM (distribStepM (n0 :: rest)) d
        = Except.ok (issuePhase n0 issues d) := by
  intro issues
  induction issues with
  | nil => intro d; rfl
  | cons i is ih =>
    intro d
    rw [List.foldlM_cons, distribStepM_cons, issuePhase_cons]
    calc (Except.ok (distribStep n0 d i) >>= fun d' =>
            is.foldlM (distribStepM (n0 :: rest)) d')
        = is.foldlM (distribStepM (n0 :: rest)) (distribStep n0 d i) := rfl
      _ = Except.ok (issuePhase n0 is (distribStep n0 d i)) := ih _

theorem fillStepM_ok (p : Int) (d : List (String × Bundle)) (n : String)
    (h : dcontains d n = true) : fillStepM p d n = Except.ok (fillStep p d n) := by
  obtain ⟨b, hb⟩ := dget?_isSome_of_dcontains h
  rw [fillStepM, fillStep, hb]
  by_cases hz : b.passedChecks = 0
  · simp only [if_pos hz]
    rfl
  · simp only [if_neg hz]
    rfl

theorem dcontains_fillStep (p : Int) (d : List (String × Bundle)) (n k : String) :
    dcontains (fillStep p d n) k = dcontains d k := by
  rw [dcontains_eq_keys, dkeys_fillStep, ← dcontains_eq_keys]

theorem foldlM_fillStepM (p : Int) :
    ∀ (l : List String) (d : List (String × Bundle)),
      (∀ n ∈ l, dcontains d n = true) →
      l.foldlM (fillStepM p) d = Except.ok (fillPhase p l d) := by
  intro l
  induction l with
  | nil => intro d _; rfl
  | cons n l ih =>
    intro d h
    rw [List.foldlM_cons, fillStepM_ok p d n (h n (List.mem_cons_self n l))]
    calc (Except.ok (fillStep p d n) >>= fun d' => l.foldlM (fillStepM p) d')
        = l.foldlM (fillStepM p) (fillStep p d n) := rfl
      _ = Except.ok (fillPhase p l (fillStep p d n)) := by
          refine ih _ ?_
          intro x hx
          rw [dcontains_fillStep]
          exact h x (List.mem_cons_of_mem n hx)
      _ = Except.ok (fillPhase p (n :: l) d) := rfl

/-- Pure characterisation of the distribution algorithm on a non-empty file
list: attribute the issues, then fill the baseline. -/
theorem distribute_eq (ar : AnalysisResult) (n0 : String) (rest : List String) :
    distributeIssuesAcrossFiles ar (n0 :: rest)
      = Except.ok
          (fillPhase (Int.fdiv ar.passedChecks ((n0 :: rest).length : Nat))
            (n0 :: rest) (issuePhase n0 ar.issues (initBundles (n0 :: rest)))) := by
  have hfill : ∀ dmid : List (String × Bundle),
      (∀ n ∈ n0 :: rest, dcontains dmid n = true) →
      List.foldlM (fillStepM (Int.fdiv ar.passedChecks ((n0 :: rest).length : Nat)))
          dmid (n0 :: rest)
        = Except.ok
            (fillPhase (Int.fdiv ar.passedChecks ((n0 :: rest).length : Nat))
              (n0 :: rest) dmid) :=
    fun dmid h => foldlM_fillStepM _ _ dmid h
  have hinit : ∀ n ∈ n0 :: rest, dcontains (initBundles (n0 :: rest)) n = true := by
    intro n hn
    rw [dcontains_initBundles]
    simpa using hn
  simp only [distributeIssuesAcrossFiles]
  by_cases he : ar.issues.isEmpty = true
  · rw [if_pos he, List.isEmpty_iff.mp he]
    exact hfill (initBundles (n0 :: rest)) hinit
  · rw [if_neg he, foldlM_distribStepM]
    refine hfill _ ?_
    intro n hn
    rw [dcontains_issuePhase]
    exact hinit n hn

theorem applyIssue_errors (b : Bundle) (i : Issue) :
    (applyIssue i b).errors = b.errors + if i.type = some "error" then 1 else 0 := by
  simp only [applyIssue]
  split <;> simp_all

theorem applyIssue_warnings (b : Bundle) (i : Issue) :
    (applyIssue i b).warnings
      = b.warnings + if i.type = some "warning" then 1 else 0 := by
  simp only [applyIssue]
  split <;> simp_all

theorem applyIssue_passedChecks (b : Bundle) (i : Issue) :
    (applyIssue i b).passedChecks
      = b.passedChecks + if i.type = some "success" then 1 else 0 := by
  simp only [applyIssue]
  split <;> simp_all

/-! ## Claims C2, C3, C5: the distribution algorithm -/

/-- Claim C2 (confirmed): on the aggregate
`(passedChecks 8, warnings 1, errors 1, issues [warning at a.js, error at b.py])`
and files `["a.js","b.py"]`, the bundle of `a.js` has `warnings=1, errors=0,
passedChecks=4 (= floor(8/2))` and the bundle of `b.py` has `errors=1,
warnings=0, passedChecks=4`. -/
theorem claim_C2 :
    distributeIssuesAcrossFiles c2Agg ["a.js", "b.py"]
        = Except.ok [("a.js", c2BundleA), ("b.py", c2BundleB)]
      ∧ c2BundleA.warnings = 1 ∧ c2BundleA.errors = 0 ∧ c2BundleA.passedChecks = 4
      ∧ c2BundleB.errors = 1 ∧ c2BundleB.warnings = 0 ∧ c2BundleB.passedChecks = 4 := by
  exact ⟨rfl, rfl, rfl, rfl, rfl, rfl, rfl⟩

/-- Claim C3 (counterexample): the distribution algorithm is not total — on an
empty file-name list the `perFileBase` division is executed unconditionally
and raises `ZeroDivisionError`. -/
theorem cex_C3 :
    distributeIssuesAcrossFiles
      { passedChecks := 8, warnings := 1, errors := 1, issues := [] } []
      = Except.error PyErr.zeroDivisionError := by
  rfl

/-- Claim C3 as amended: the distribution algorithm returns a bundle mapping
without raising for every aggregate result and every NON-EMPTY file-name
list; on the empty list it always raises (`ZeroDivisionError` via the
unconditional `perFileBase` division when no issue is processed first,
`IndexError` from the eager `file_names[0]` default otherwise). -/
theorem claim_C3 :
    (∀ (ar : AnalysisResult) (n0 : String) (rest : List String),
      ∃ m, distributeIssuesAcrossFiles ar (n0 :: rest) = Except.ok m)
    ∧ (∀ ar : AnalysisResult, ∃ e, distributeIssuesAcrossFiles ar [] = Except.error e) := by
  constructor
  · intro ar n0 rest
    exact ⟨_, distribute_eq ar n0 rest⟩
  · intro ar
    simp only [distributeIssuesAcrossFiles]
    by_cases he : ar.issues.isEmpty = true
    · rw [if_pos he]
      exact ⟨PyErr.zeroDivisionError, rfl⟩
    · rw [if_neg he]
      rcases har : ar.issues with _ | ⟨i, is⟩
      · simp [har] at he
      · exact ⟨PyErr.indexError, rfl⟩

/-- Claim C5 (confirmed): over the bundles returned for a non-empty file list,
the `errors` total equals the number of error-type issues attributed to known
files, the `warnings` total likewise, and before the baseline fill the
`passedChecks` total equals the number of success-type issues so attributed
(suggestion-type issues are counted in none of the three). -/
theorem claim_C5 :
    ∀ (ar : AnalysisResult) (n0 : String) (rest : List String)
      (m : List (String × Bundle)),
      distributeIssuesAcrossFiles ar (n0 :: rest) = Except.ok m →
      ((m.map (fun p => p.2.errors)).sum
          = (attributedCount "error" ar n0 (n0 :: rest) : Int))
      ∧ ((m.map (fun p => p.2.warnings)).sum
          = (attributedCount "warning" ar n0 (n0 :: rest) : Int))
      ∧ (((issuePhase n0 ar.issues (initBundles (n0 :: rest))).map
            (fun p => p.2.passedChecks)).sum
          = (attributedCount "success" ar n0 (n0 :: rest) : Int)) := by
  intro ar n0 rest m h
  have hfc : ∀ ty : String,
      (ar.issues.filter
        (fun i => dcontains (initBundles (n0 :: rest)) (i.file.getD n0)
          && decide (i.type = some ty)))
        = (ar.issues.filter
            (fun i => decide (i.file.getD n0 ∈ n0 :: rest)
              && decide (i.type = some ty))) := by
    intro ty
    refine List.filter_congr ?_
    intro i _
    rw [dcontains_initBundles]
  have hm : m = fillPhase (Int.fdiv ar.passedChecks ((n0 :: rest).length : Nat))
      (n0 :: rest) (issuePhase n0 ar.issues (initBundles (n0 :: rest))) := by
    have h2 := h.symm.trans (distribute_eq ar n0 rest)
    injection h2
  subst hm
  refine ⟨?_, ?_, ?_⟩
  · rw [fillPhase_sum_invariant (fun b => b.errors) (fun b p => rfl),
      issuePhase_sum (fun b => b.errors) "error" applyIssue_errors ar.issues n0
        (initBundles (n0 :: rest)) (initBundles_nodup (n0 :: rest)),
      sum_initBundles (fun b => b.errors) rfl, hfc "error", attributedCount]
    ring
  · rw [fillPhase_sum_invariant (fun b => b.warnings) (fun b p => rfl),
      issuePhase_sum (fun b => b.warnings) "warning" applyIssue_warnings ar.issues n0
        (initBundles (n0 :: rest)) (initBundles_nodup (n0 :: rest)),
      sum_initBundles (fun b => b.warnings) rfl, hfc "warning", attributedCount]
    ring
  · rw [issuePhase_sum (fun b => b.passedChecks) "success" applyIssue_passedChecks
        ar.issues n0 (initBundles (n0 :: rest)) (initBundles_nodup (n0 :: rest)),
      sum_initBundles (fun b => b.passedChecks) rfl, hfc "success", attributedCount]
    ring

/-- Witness for C5 at the Scenario-A input. -/
theorem witness_C5 :
    (([("a.js", c2BundleA), ("b.py", c2BundleB)]).map
        (fun p => p.2.errors)).sum
      = (attributedCount "error" c2Agg "a.js" ["a.js", "b.py"] : Int) :=
  (claim_C5 c2Agg "a.js" ["b.py"] [("a.js", c2BundleA), ("b.py", c2BundleB)]
    (by rfl)).1

/-! ## Claim C4: the completedAt/status invariant of the session registry -/

theorem applySessUpd_proc (s : Session) (now : Nat) :
    applySessUpd s procPayload now = { s with status := "processing" } := by
  simp [applySessUpd, procPayload]

theorem applySessUpd_reset (s : Session) (now : Nat) :
    applySessUpd s resetPayload now
      = { s with status := "processing", processedFiles := 0, completedAt := none } := by
  simp [applySessUpd, resetPayload]

theorem applySessUpd_err (s : Session) (now : Nat) :
    applySessUpd s errPayload now = { s with status := "error" } := by
  simp [applySessUpd, errPayload]

theorem applySessUpd_completed (s : Session) (n now : Nat) (h : s.completedAt = none) :
    applySessUpd s (runCompletedPayload n) now
      = { s with
          status := "completed", processedFiles := n,
          completedAt := some now } := by
  simp [applySessUpd, runCompletedPayload, h]

/-- Strengthened reachability invariant: every reachable session state
satisfies the completedAt/status invariant, and the lifecycle phase pins the
status while a run is pending. -/
theorem reach_invariant : ∀ (ph : Ph) (s : Session), Reach ph s →
    goodSession s
    ∧ (ph = Ph.created → s.status = "pending" ∧ s.completedAt = none)
    ∧ (ph = Ph.running → s.status = "processing" ∧ s.completedAt = none) := by
  intro ph s h
  induction h with
  | create sid t clk =>
    refine ⟨?_, fun _ => ⟨rfl, rfl⟩, by simp⟩
    simp [goodSession, newSession]
  | uploadTrigger now h ih =>
    have hc := ih.2.1 rfl
    rw [applySessUpd_proc]
    refine ⟨?_, by simp, fun _ => ⟨rfl, hc.2⟩⟩
    simp [goodSession, hc.2]
  | runSetProc now h ih =>
    have hc := ih.2.2 rfl
    rw [applySessUpd_proc]
    refine ⟨?_, by simp, fun _ => ⟨rfl, hc.2⟩⟩
    simp [goodSession, hc.2]
  | runOk n now h ih =>
    have hc := ih.2.2 rfl
    rw [applySessUpd_completed _ _ _ hc.2]
    refine ⟨?_, by simp, by simp⟩
    simp [goodSession]
  | runFail now h ih =>
    have hc := ih.2.2 rfl
    rw [applySessUpd_err]
    refine ⟨?_, by simp, by simp⟩
    simp [goodSession, hc.2]
  | reanalyze now h ih =>
    rw [applySessUpd_reset]
    refine ⟨?_, by simp, fun _ => ⟨rfl, rfl⟩⟩
    simp [goodSession]

/-- Claim C4 (confirmed): along every sequence of registry operations the
handlers and the orchestrator actually issue (sequential lifecycle per the
spec's concurrency contract), `completedAt` is non-null iff
`status == completed`; and whenever the orchestrator's completing update is
issued (phase `running`), it is a genuine transition — the prior status is
not `completed`, the prior `completedAt` is null — and the update stamps
`completedAt = now`. -/
theorem claim_C4 : ∀ (ph : Ph) (s : Session), Reach ph s →
    goodSession s
    ∧ (ph = Ph.running → ∀ n now : Nat,
        (applySessUpd s (runCompletedPayload n) now).completedAt = some now
        ∧ s.completedAt = none ∧ s.status ≠ "completed") := by
  intro ph s h
  have hi := reach_invariant ph s h
  refine ⟨hi.1, ?_⟩
  intro hrun n now
  have hr := hi.2.2 hrun
  refine ⟨?_, hr.2, ?_⟩
  · rw [applySessUpd_completed _ _ _ hr.2]
  · rw [hr.1]
    decide

/-- Witness for C4: a concrete reachable `running` session (created by the
upload handler with two files, then moved to `processing`). -/
theorem witness_C4 :
    goodSession (applySessUpd (newSession 0 2 0) procPayload 1)
    ∧ (applySessUpd (applySessUpd (newSession 0 2 0) procPayload 1)
        (runCompletedPayload 2) 5).completedAt = some 5 := by
  have h := claim_C4 Ph.running (applySessUpd (newSession 0 2 0) procPayload 1)
    (Reach.uploadTrigger 1 (Reach.create 0 2 0))
  exact ⟨h.1, (h.2 rfl 2 5).1⟩

/-! ## Claim C6: the status endpoint -/

/-- Claim C6 (counterexample): with a single owned file in the `analyzing`
sub-state, every owned file has passed the `processing` sub-state of the
per-file state machine, yet the derived `lambdaCompleted` flag is `false` —
the flags are not "true iff all owned files passed the sub-state". -/
theorem cex_C6 :
    ((getFileAnalysisBySession c6Store 0).all (fun f => hasPassedStage f 1) = true)
    ∧ getAnalysisStatus c6Store 0
        = Except.ok
            { status := "processing", totalFiles := 1, processedFiles := 0,
              totalSize := 7, uploadCompleted := true, lambdaCompleted := false,
              ecsCompleted := true, bedrockCompleted := false } := by
  exact ⟨rfl, rfl⟩

/-- Claim C6 as amended: `GET status` returns 404 on an unknown id; otherwise
it returns the session's status and totals together with flags computed as
membership tests — `uploadCompleted` iff no owned file has status
`uploading`, `lambdaCompleted` iff every owned file is in
`{processing, completed}`, `ecsCompleted` iff every owned file is in
`{analyzing, completed}`, `bedrockCompleted` iff the session status is
`completed` (so a file in `analyzing` makes `lambdaCompleted` false even
though it passed the `processing` sub-state). -/
theorem claim_C6 : ∀ (st : Store) (sid : Nat),
    (dget? st.sessions sid = none → getAnalysisStatus st sid = Except.error 404)
    ∧ (∀ s : Session, dget? st.sessions sid = some s →
        ∃ r : StatusResp, getAnalysisStatus st sid = Except.ok r
          ∧ r.status = s.status ∧ r.totalFiles = s.totalFiles
          ∧ r.processedFiles = s.processedFiles
          ∧ r.totalSize = ((getFileAnalysisBySession st sid).map (·.fileSize)).sum
          ∧ (r.uploadCompleted = true ↔
              ∀ f ∈ getFileAnalysisBySession st sid, ¬f.status = "uploading")
          ∧ (r.lambdaCompleted = true ↔
              ∀ f ∈ getFileAnalysisBySession st sid,
                f.status = "processing" ∨ f.status = "completed")
          ∧ (r.ecsCompleted = true ↔
              ∀ f ∈ getFileAnalysisBySession st sid,
                f.status = "analyzing" ∨ f.status = "completed")
          ∧ (r.bedrockCompleted = true ↔ s.status = "completed")) := by
  intro st sid
  constructor
  · intro h
    simp [getAnalysisStatus, h]
  · intro s hs
    refine
      ⟨{ status := s.status, totalFiles := s.totalFiles,
         processedFiles := s.processedFiles,
         totalSize := ((getFileAnalysisBySession st sid).map (·.fileSize)).sum,
         uploadCompleted := (getFileAnalysisBySession st sid).all
           (fun f => !(f.status = "uploading")),
         lambdaCompleted := (getFileAnalysisBySession st sid).all
           (fun f => f.status = "processing" || f.status = "completed"),
         ecsCompleted := (getFileAnalysisBySession st sid).all
           (fun f => f.status = "analyzing" || f.status = "completed"),
         bedrockCompleted := decide (s.status = "completed") },
       by simp [getAnalysisStatus, hs], rfl, rfl, rfl, rfl, ?_, ?_, ?_, ?_⟩
    · simp [List.all_eq_true]
    · simp [List.all_eq_true]
    · simp [List.all_eq_true]
    · simp

/-- Witness for C6 at the concrete registry with one `analyzing` file. -/
theorem witness_C6 :
    ∃ r : StatusResp, getAnalysisStatus c6Store 0 = Except.ok r
      ∧ r.status = c6Sess.status ∧ r.totalFiles = c6Sess.totalFiles
      ∧ r.processedFiles = c6Sess.processedFiles
      ∧ r.totalSize = ((getFileAnalysisBySession c6Store 0).map (·.fileSize)).sum
      ∧ (r.uploadCompleted = true ↔
          ∀ f ∈ getFileAnalysisBySession c6Store 0, ¬f.status = "uploading")
      ∧ (r.lambdaCompleted = true ↔
          ∀ f ∈ getFileAnalysisBySession c6Store 0,
            f.status = "processing" ∨ f.status = "completed")
      ∧ (r.ecsCompleted = true ↔
          ∀ f ∈ getFileAnalysisBySession c6Store 0,
            f.status = "analyzing" ∨ f.status = "completed")
      ∧ (r.bedrockCompleted = true ↔ c6Sess.status = "completed") :=
  (claim_C6 c6Store 0).2 c6Sess rfl

/-! ## Lemmas about the orchestrator run -/

theorem updateFileAnalysis_sessions (st : Store) (id : Nat) (u : FileUpd) :
    ((updateFileAnalysis st id u).1).sessions = st.sessions := by
  rcases h : dget? st.files id with _ | f <;> simp [updateFileAnalysis, h]

theorem updateFileAnalysis_counter (st : Store) (id : Nat) (u : FileUpd) :
    ((updateFileAnalysis st id u).1).counter = st.counter := by
  rcases h : dget? st.files id with _ | f <;> simp [updateFileAnalysis, h]

theorem updateAnalysisSession_files (st : Store) (id : Nat) (u : SessUpd) :
    ((updateAnalysisSession st id u).1).files = st.files := by
  rcases h : dget? st.sessions id with _ | s <;> simp [updateAnalysisSession, h]

theorem updateAnalysisSession_counter (st : Store) (id : Nat) (u : SessUpd) :
    ((updateAnalysisSession st id u).1).counter = st.counter := by
  rcases h : dget? st.sessions id with _ | s <;> simp [updateAnalysisSession, h]

theorem updateAnalysisSession_get_self (st : Store) (id : Nat) (u : SessUpd)
    {s : Session} (h : dget? st.sessions id = some s) :
    dget? ((updateAnalysisSession st id u).1).sessions id
      = some (applySessUpd s u st.clock) := by
  simp [updateAnalysisSession, h, dget?_dinsert_self]

theorem processFile_sessions (st : Store) (fid : Nat) :
    (processFile st fid).sessions = st.sessions := by
  rw [processFile, updateFileAnalysis_sessions, updateFileAnalysis_sessions]

theorem foldl_processFile_sessions :
    ∀ (l : List FileRec) (st : Store),
      ((l.foldl (fun s f => processFile s f.id) st)).sessions = st.sessions := by
  intro l
  induction l with
  | nil => intro st; rfl
  | cons f fs ih =>
    intro st
    rw [List.foldl_cons, ih, processFile_sessions]

theorem foldl_attach_sessions (perFile : List (String × Bundle)) :
    ∀ (l : List FileRec) (st : Store),
      ((l.foldl
          (fun s f =>
            let r := (dget? perFile f.fileName).getD emptyBundle
            (updateFileAnalysis s f.id
              { status := some "completed", analysisResult := some (some r) }).1)
          st)).sessions = st.sessions := by
  intro l
  induction l with
  | nil => intro st; rfl
  | cons f fs ih =>
    intro st
    rw [List.foldl_cons, ih, updateFileAnalysis_sessions]

theorem applySessUpd_processedFiles (s : Session) (u : SessUpd) (now : Nat) :
    (applySessUpd s u now).processedFiles
      = u.processedFiles.getD s.processedFiles := by
  simp only [applySessUpd]
  split <;> rfl

theorem applySessUpd_totalFiles (s : Session) (u : SessUpd) (now : Nat) :
    (applySessUpd s u now).totalFiles = s.totalFiles := by
  simp only [applySessUpd]
  split <;> rfl

theorem applySessUpd_status (s : Session) (u : SessUpd) (now : Nat) :
    (applySessUpd s u now).status = u.status.getD s.status := by
  simp only [applySessUpd]
  split <;> rfl

/-- Evaluation of the run on a session with no owned files: the no-files
exception is raised before any state is advanced, the handler sets the
session to `error`, and the exception propagates. -/
theorem processSession_of_empty (st : Store) (sid : Nat)
    (h : getFileAnalysisBySession st sid = []) :
    processSession st sid
      = ((updateAnalysisSession st sid { status := some "error" }).1, [],
          Except.error RunErr.noFiles) := by
  simp only [processSession, h]

/-- Evaluation of the run on a session with at least one owned file: the run
succeeds, its only external call is the single batched analysis invocation
carrying the full ordered file-name list, and the final session update sets
`processedFiles` to the number of owned files while preserving
`totalFiles`. -/
theorem processSession_cons_spec (st : Store) (sid : Nat) (f : FileRec)
    (fs : List FileRec) (hf : getFileAnalysisBySession st sid = f :: fs) :
    ∃ stFin : Store,
      processSession st sid
          = (stFin, [Ev.analyzeCall ((f :: fs).map (·.fileName))], Except.ok ())
        ∧ (∀ s0 : Session, dget? st.sessions sid = some s0 →
            ∃ s', dget? stFin.sessions sid = some s'
              ∧ s'.processedFiles = (f :: fs).length
              ∧ s'.totalFiles = s0.totalFiles) := by
  obtain ⟨mock, hmock⟩ : ∃ mock,
      generateMockAnalysis (f.fileName :: fs.map (·.fileName)) = Except.ok mock := by
    rcases hm : fs.map (·.fileName) with _ | ⟨n1, ns⟩
    · refine
        ⟨{ passedChecks := 8, warnings := 2, errors := 0,
           issues := [{ type := some "warning", file := some f.fileName },
                      { type := some "suggestion", file := some f.fileName },
                      { type := some "success", file := some f.fileName }] }, ?_⟩
      rw [hm]
      rfl
    · refine
        ⟨{ passedChecks := 8, warnings := 2, errors := 1,
           issues := [{ type := some "warning", file := some f.fileName },
                      { type := some "suggestion", file := some f.fileName },
                      { type := some "success", file := some f.fileName },
                      { type := some "error", file := some n1 }] }, ?_⟩
      rw [hm]
      rfl
  simp only [processSession, hf, List.map_cons, hmock, distribute_eq]
  refine ⟨_, rfl, ?_⟩
  intro s0 hs0
  set st1 := (updateAnalysisSession st sid { status := some "processing" }).1
    with hst1
  set st2 := (f :: fs).foldl (fun s g => processFile s g.id) st1 with hst2
  have hsess2 : st2.sessions = st1.sessions := foldl_processFile_sessions _ _
  have hs1 : dget? st1.sessions sid
      = some (applySessUpd s0 { status := some "processing" } st.clock) :=
    updateAnalysisSession_get_self st sid _ hs0
  set dfill := fillPhase
      (Int.fdiv mock.passedChecks ((f.fileName :: fs.map (·.fileName)).length : Nat))
      (f.fileName :: fs.map (·.fileName))
      (issuePhase f.fileName mock.issues
        (initBundles (f.fileName :: fs.map (·.fileName)))) with hdfill
  set st3 := (f :: fs).foldl
      (fun s g =>
        let r := (dget? dfill g.fileName).getD emptyBundle
        (updateFileAnalysis s g.id
          { status := some "completed", analysisResult := some (some r) }).1)
      st2 with hst3
  have hsess3 : st3.sessions = st1.sessions := by
    rw [hst3, foldl_attach_sessions, hsess2]
  have hs3 : dget? st3.sessions sid
      = some (applySessUpd s0 { status := some "processing" } st.clock) := by
    rw [hsess3]
    exact hs1
  refine ⟨_, updateAnalysisSession_get_self st3 sid _ hs3, ?_, ?_⟩
  · rw [applySessUpd_processedFiles]
    rfl
  · rw [applySessUpd_totalFiles, applySessUpd_totalFiles]

/-! ## Claims C7 and C1: run error handling and the batched analysis call -/

/-- Claim C7 (confirmed): on a session with no owned FileRecords the run
fails fast with the no-files exception before advancing any state (the only
store change is the error write on the session); and every exception
escaping a run (the no-files one is the only one possible) sets the session
status to `error`, is re-raised to the caller, and leaves every file record
exactly as it was. -/
theorem claim_C7 : ∀ (st : Store) (sid : Nat) (s : Session),
    dget? st.sessions sid = some s →
    ((getFileAnalysisBySession st sid = [] →
        processSession st sid
          = ({ st with
               sessions := dinsert st.sessions sid { s with status := "error" } },
             [], Except.error RunErr.noFiles))
     ∧ (∀ (st' : Store) (tr : List Ev) (e : RunErr),
          processSession st sid = (st', tr, Except.error e) →
          getFileAnalysisBySession st sid = [] ∧ e = RunErr.noFiles
            ∧ st'.files = st.files
            ∧ dget? st'.sessions sid = some { s with status := "error" })) := by
  intro st sid s hs
  have hupd : (updateAnalysisSession st sid { status := some "error" }).1
      = { st with
          sessions := dinsert st.sessions sid { s with status := "error" } } := by
    simp [updateAnalysisSession, hs, applySessUpd]
  constructor
  · intro hf
    rw [processSession_of_empty st sid hf, hupd]
  · intro st' tr e heq
    rcases hf : getFileAnalysisBySession st sid with _ | ⟨f, fs⟩
    · rw [processSession_of_empty st sid hf, hupd] at heq
      simp only [Prod.mk.injEq] at heq
      obtain ⟨h1, h2, h3⟩ := heq
      injection h3 with he
      refine ⟨rfl, he.symm, ?_, ?_⟩
      · rw [← h1]
      · rw [← h1]
        exact dget?_dinsert_self _ _ _
    · obtain ⟨stFin, hrun, _⟩ := processSession_cons_spec st sid f fs hf
      rw [hrun] at heq
      simp only [Prod.mk.injEq] at heq
      exact absurd heq.2.2 (by simp)

/-- Witness for C7: running the session with zero owned files. -/
theorem witness_C7 :
    processSession c7Store 0
      = ({ c7Store with
           sessions := dinsert c7Store.sessions 0 { c7Sess with status := "error" } },
         [], Except.error RunErr.noFiles) :=
  (claim_C7 c7Store 0 c7Sess rfl).1 rfl

/-- Claim C1 (counterexample): a successful run on a concrete session with
one uploaded file performs no Object-Store fetch at all — it is false that
the run fetches the contents of every owned file keyed by its storage key
(the trace contains no `s3Get` event for the file's key). -/
theorem cex_C1 :
    (processSession cexStore 0).2.2 = Except.ok ()
    ∧ getFileAnalysisBySession cexStore 0 = [cexFile]
    ∧ ¬(∀ f ∈ getFileAnalysisBySession cexStore 0,
        Ev.s3Get f.s3Key ∈ (processSession cexStore 0).2.1) := by
  refine ⟨rfl, rfl, ?_⟩
  intro h
  have := h cexFile (by rw [(rfl : getFileAnalysisBySession cexStore 0 = [cexFile])]; exact List.mem_singleton_self _)
  revert this
  decide

/-- Claim C1 as amended: a run over a session with at least one owned file
never touches the Object Store and invokes the (mock) Analysis Provider
exactly once, with the full ordered list of the session's file names — a
single batched call, not one per file; no content fetching and no
"unreadable" placeholder exists in this code path. -/
theorem claim_C1 : ∀ (st : Store) (sid : Nat) (f : FileRec) (fs : List FileRec),
    getFileAnalysisBySession st sid = f :: fs →
    (processSession st sid).2.1 = [Ev.analyzeCall ((f :: fs).map (·.fileName))]
    ∧ (processSession st sid).2.2 = Except.ok () := by
  intro st sid f fs hf
  obtain ⟨stFin, hrun, _⟩ := processSession_cons_spec st sid f fs hf
  rw [hrun]
  exact ⟨rfl, rfl⟩

/-- Witness for C1 at the concrete one-file registry. -/
theorem witness_C1 :
    (processSession cexStore 0).2.1
        = [Ev.analyzeCall ([cexFile].map (·.fileName))]
    ∧ (processSession cexStore 0).2.2 = Except.ok () :=
  claim_C1 cexStore 0 cexFile [] rfl

/-! ## Claim C8: upload validation -/

/-- Claim C8 (counterexample): an upload whose only file has the empty string
as its name — a name that does not end in any allow-listed extension — is
accepted (no 400-class response) and a session is created, because the
validation guard `if file.filename and ...` skips falsy names. -/
theorem cex_C8 :
    (uploadFiles emptyStore
        [{ filename := some "", content := "x", contentType := none }]).2
      = UploadResp.ok 0
    ∧ dget? (uploadFiles emptyStore
        [{ filename := some "", content := "x", contentType := none }]).1.sessions 0
      ≠ none
    ∧ ¬hasValidExtension "" = true := by
  refine ⟨rfl, by decide, by decide⟩

/-- Claim C8 as amended: for every upload request containing at least one
file whose NON-EMPTY name does not (case-insensitively) end in an
allow-listed extension, the endpoint returns the 400 response listing the
offending names, and the registry is completely unchanged — no session and
no FileRecord is created.  (Files with empty or missing names bypass the
validation; see C10.) -/
theorem claim_C8 : ∀ (st : Store) (fl : List UploadFile),
    (∃ f ∈ fl, ∃ nm, f.filename = some nm ∧ nm ≠ ""
      ∧ ¬hasValidExtension nm = true) →
    ∃ names, uploadFiles st fl = (st, UploadResp.err400Invalid names)
      ∧ names ≠ []
      ∧ (∀ nm ∈ names, ∃ f ∈ fl, f.filename = some nm
          ∧ ¬hasValidExtension nm = true) := by
  intro st fl hbad
  obtain ⟨f, hf, nm, hnm, hne, hnv⟩ := hbad
  have hpred : (truthyName f.filename
      && !hasValidExtension (f.filename.getD "")) = true := by
    rw [hnm]
    simp [truthyName, hne, hnv]
  have hmem : f ∈ fl.filter
      (fun f => truthyName f.filename && !hasValidExtension (f.filename.getD "")) :=
    List.mem_filter.mpr ⟨hf, hpred⟩
  have hinv : ((fl.filter
      (fun f => truthyName f.filename
        && !hasValidExtension (f.filename.getD ""))).map
      (fun f => f.filename.getD "")).isEmpty = false := by
    rcases hl : fl.filter
        (fun f => truthyName f.filename && !hasValidExtension (f.filename.getD ""))
      with _ | ⟨g, gs⟩
    · rw [hl] at hmem
      cases hmem
    · rw [hl]
      rfl
  have hne' : fl.isEmpty = false := by
    rcases fl with _ | ⟨g, gs⟩
    · cases hf
    · rfl
  refine
    ⟨(fl.filter
        (fun f => truthyName f.filename
          && !hasValidExtension (f.filename.getD ""))).map
        (fun f => f.filename.getD ""), ?_, ?_, ?_⟩
  · simp only [uploadFiles]
    rw [if_neg (by simp [hne']), if_pos (by simp [hinv])]
  · intro hx
    rw [hx] at hinv
    simp at hinv
  · intro nm' hnm'
    obtain ⟨g, hg, hge⟩ := List.mem_map.mp hnm'
    have hgf := List.mem_filter.mp hg
    obtain ⟨hgfl, hgp⟩ := hgf
    rcases hgn : g.filename with _ | s
    · rw [hgn] at hgp
      simp [truthyName] at hgp
    · rw [hgn] at hge hgp
      simp only [Option.getD_some] at hge
      simp only [truthyName, Bool.and_eq_true, Bool.not_eq_true'] at hgp
      refine ⟨g, hgfl, ?_, ?_⟩
      · rw [hgn, hge]
      · rw [← hge]
        have h2 := hgp.2
        simp only [Option.getD_some] at h2
        simp [h2]

/-- Witness for C8: an upload containing a `x.txt` file is rejected with the
registry unchanged. -/
theorem witness_C8 :
    ∃ names, uploadFiles emptyStore
        [{ filename := some "x.txt", content := "c", contentType := none }]
      = (emptyStore, UploadResp.err400Invalid names)
      ∧ names ≠ []
      ∧ (∀ nm ∈ names,
          ∃ f ∈ [({ filename := some "x.txt", content := "c",
                    contentType := none } : UploadFile)],
            f.filename = some nm ∧ ¬hasValidExtension nm = true) :=
  claim_C8 emptyStore _
    ⟨{ filename := some "x.txt", content := "c", contentType := none },
     List.mem_singleton_self _, "x.txt", rfl, by decide, by decide⟩

/-! ## Lemmas about reanalysis (claim C9) -/

theorem dget?_eq_none_of_dcontains_false {κ α : Type} [DecidableEq κ]
    {d : List (κ × α)} {k : κ} (h : dcontains d k = false) : dget? d k = none := by
  rw [dcontains_eq_false_iff] at h
  rw [dget?]
  have hfind : List.find? (fun p => decide (p.1 = k)) d = none := by
    rw [List.find?_eq_none]
    intro p hp
    simpa using h p hp
  rw [hfind]
  rfl

theorem dcontains_of_dget?_eq_some {κ α : Type} [DecidableEq κ]
    {d : List (κ × α)} {k : κ} {v : α} (h : dget? d k = some v) :
    dcontains d k = true := by
  by_cases hc : dcontains d k = true
  · exact hc
  · rw [dget?_eq_none_of_dcontains_false (by simpa using hc)] at h
    cases h

/-- A file update with a non-completing payload is a pure in-place overwrite
of the record (no clock use). -/
theorem updateFileAnalysis_of_get {st : Store} {fid : Nat} {u : FileUpd}
    {f : FileRec} (h : dget? st.files fid = some f)
    (hu : u.status ≠ some "completed") :
    (updateFileAnalysis st fid u).1
      = { st with files := dinsert st.files fid (applyFileUpd f u st.clock) } := by
  simp [updateFileAnalysis, h, hu]

/-- Iterating a non-completing per-file update over a snapshot of distinct
records (each present in the registry under its own id) rewrites exactly
those entries in place and touches nothing else. -/
theorem foldl_updateFile_map (u : FileUpd) (hu : u.status ≠ some "completed") :
    ∀ (l : List FileRec) (st : Store),
      (dkeys st.files).Nodup →
      (l.map (·.id)).Nodup →
      (∀ f ∈ l, dget? st.files f.id = some f) →
      (l.foldl (fun s f => (updateFileAnalysis s f.id u).1) st)
        = { st with
            files := st.files.map
              (fun p => if p.1 ∈ l.map (·.id)
                then (p.1, applyFileUpd p.2 u st.clock) else p) } := by
  intro l
  induction l with
  | nil =>
    intro st _ _ _
    simp
  | cons f rest ih =>
    intro st hnd hlnd hl
    have hf : dget? st.files f.id = some f := hl f (List.mem_cons_self f rest)
    have hc : dcontains st.files f.id = true := dcontains_of_dget?_eq_some hf
    have hst1 : (updateFileAnalysis st f.id u).1
        = { st with
            files := dinsert st.files f.id (applyFileUpd f u st.clock) } :=
      updateFileAnalysis_of_get hf hu
    rw [List.foldl_cons, hst1]
    have hmap1 : dinsert st.files f.id (applyFileUpd f u st.clock)
        = st.files.map
            (fun p => if p.1 = f.id then (f.id, applyFileUpd f u st.clock) else p) :=
      dinsert_eq_map _ _ _ hc
    rw [List.map_cons, List.nodup_cons] at hlnd
    have hnd1 : (dkeys (dinsert st.files f.id (applyFileUpd f u st.clock))).Nodup := by
      rw [dkeys_dinsert_of_contains _ _ _ hc]
      exact hnd
    have hl1 : ∀ g ∈ rest,
        dget? (dinsert st.files f.id (applyFileUpd f u st.clock)) g.id = some g := by
      intro g hg
      have hne : g.id ≠ f.id := by
        intro hx
        exact hlnd.1 (hx ▸ List.mem_map_of_mem (·.id) hg)
      rw [dget?_dinsert_ne _ _ hne]
      exact hl g (List.mem_cons_of_mem f hg)
    have := ih { st with
        files := dinsert st.files f.id (applyFileUpd f u st.clock) }
      hnd1 hlnd.2 hl1
    rw [this]
    have hcomp : (dinsert st.files f.id (applyFileUpd f u st.clock)).map
          (fun p => if p.1 ∈ rest.map (·.id)
            then (p.1, applyFileUpd p.2 u st.clock) else p)
        = st.files.map
            (fun p => if p.1 ∈ f.id :: rest.map (·.id)
              then (p.1, applyFileUpd p.2 u st.clock) else p) := by
      rw [hmap1, List.map_map]
      refine List.map_congr_left ?_
      intro p hp
      by_cases hpf : p.1 = f.id
      · have hp2 : p.2 = f := by
          have h1 := dget?_eq_some_of_mem_nodup hnd hp
          rw [hpf, hf] at h1
          injection h1 with h1
          exact h1.symm
        have hnotrest : f.id ∉ rest.map (·.id) := hlnd.1
        simp only [Function.comp_apply, if_pos hpf]
        rw [if_neg (by simpa using hnotrest),
          if_pos (by rw [hpf]; exact List.mem_cons_self _ _), hpf, hp2]
      · simp only [Function.comp_apply, if_neg hpf]
        by_cases hpr : p.1 ∈ rest.map (·.id)
        · rw [if_pos hpr, if_pos (List.mem_cons_of_mem _ hpr)]
        · rw [if_neg hpr, if_neg (by
            intro hx
            rcases List.mem_cons.mp hx with hx | hx
            · exact hpf hx
            · exact hpr hx)]
    rw [hcomp]
    rfl

theorem applyFileUpd_reset (f : FileRec) (now : Nat) :
    applyFileUpd f
        { status := some "uploaded", analysisResult := some none,
          completedAt := some none } now
      = resetFileRec f := by
  simp [applyFileUpd, resetFileRec]

/-- Claim C9 (confirmed): on any existing session, the re-analysis trigger
resets the session to `processing` with `processedFiles = 0` and
`completedAt = null`, resets every owned FileRecord to `uploaded` with
`analysisResult = null` and `completedAt = null` (before the new run is
scheduled), and leaves everything else — each owned file's `fileName`,
`fileSize`, `fileType`, `s3Key` (storage key), `sessionId`, `createdAt`
(the `resetFileRec` frame), every record of other sessions, and the store's
counter and clock — unchanged. -/
theorem claim_C9 : ∀ (st : Store) (sid : Nat) (s : Session),
    WF st → dget? st.sessions sid = some s →
    reanalyzeSession st sid
      = ({ st with
           sessions := dinsert st.sessions sid
             { s with
               status := "processing", processedFiles := 0, completedAt := none },
           files := st.files.map
             (fun p => if p.2.sessionId = sid
               then (p.1, resetFileRec p.2) else p) },
         Except.ok ()) := by
  intro st sid s hwf hs
  have hupd : (updateAnalysisSession st sid
      { status := some "processing", processedFiles := some 0,
        completedAt := some none }).1
      = { st with
          sessions := dinsert st.sessions sid
            { s with
              status := "processing", processedFiles := 0,
              completedAt := none } } := by
    simp [updateAnalysisSession, hs, applySessUpd]
  have hids : ((getFileAnalysisBySession st sid).map (·.id)).Nodup := by
    have hsub : List.Sublist ((getFileAnalysisBySession st sid).map (·.id))
        ((st.files.map (·.2)).map (·.id)) :=
      (List.filter_sublist _).map _
    rw [List.map_map] at hsub
    have heq : st.files.map ((·.id) ∘ (·.2)) = dkeys st.files :=
      List.map_congr_left (fun p hp => hwf.fileId p hp)
    rw [heq] at hsub
    exact hwf.filesNodup.sublist hsub
  have hlget : ∀ g ∈ getFileAnalysisBySession st sid,
      dget? st.files g.id = some g := by
    intro g hg
    have hg' := List.mem_filter.mp hg
    obtain ⟨q, hq, hq2⟩ := List.mem_map.mp hg'.1
    have hqid : g.id = q.1 := by
      rw [← hq2]
      exact hwf.fileId q hq
    rw [hqid, dget?_eq_some_of_mem_nodup hwf.filesNodup hq, hq2]
  have hfold := foldl_updateFile_map
    { status := some "uploaded", analysisResult := some none,
      completedAt := some none }
    (by simp)
    (getFileAnalysisBySession st sid)
    { st with
      sessions := dinsert st.sessions sid
        { s with
          status := "processing", processedFiles := 0, completedAt := none } }
    hwf.filesNodup hids hlget
  have hmaps : st.files.map
      (fun p => if p.1 ∈ (getFileAnalysisBySession st sid).map (·.id)
        then (p.1, applyFileUpd p.2
          { status := some "uploaded", analysisResult := some none,
            completedAt := some none } st.clock)
        else p)
      = st.files.map
          (fun p => if p.2.sessionId = sid then (p.1, resetFileRec p.2) else p) := by
    refine List.map_congr_left ?_
    intro p hp
    have hiff : p.1 ∈ (getFileAnalysisBySession st sid).map (·.id)
        ↔ p.2.sessionId = sid := by
      constructor
      · intro hx
        obtain ⟨g, hg, hgid⟩ := List.mem_map.mp hx
        have hgl := List.mem_filter.mp hg
        obtain ⟨q, hq, hq2⟩ := List.mem_map.mp hgl.1
        have hq1 : q.1 = p.1 := by
          rw [← hgid, ← hq2]
          exact (hwf.fileId q hq).symm ▸ rfl
        have hqp : q = p := mem_unique_of_nodup_keys hwf.filesNodup hq hp hq1
        have hsid : g.sessionId = sid := by simpa using hgl.2
        rw [← hqp, hq2]
        exact hsid
      · intro hx
        have hmem : p.2 ∈ getFileAnalysisBySession st sid :=
          List.mem_filter.mpr ⟨List.mem_map_of_mem (·.2) hp, by simpa using hx⟩
        have hid : p.2.id = p.1 := hwf.fileId p hp
        exact hid ▸ List.mem_map_of_mem (·.id) hmem
    by_cases hcase : p.2.sessionId = sid
    · rw [if_pos (hiff.mpr hcase), if_pos hcase, applyFileUpd_reset]
    · rw [if_neg (fun hx => hcase (hiff.mp hx)), if_neg hcase]
  simp only [reanalyzeSession, hs, hupd]
  rw [show getFileAnalysisBySession
      { st with
        sessions := dinsert st.sessions sid
          { s with
            status := "processing", processedFiles := 0,
            completedAt := none } } sid
      = getFileAnalysisBySession st sid from rfl]
  rw [hfold]
  simp only [Prod.mk.injEq, Store.mk.injEq, and_true, true_and]
  exact hmaps

/-- Witness for C9 at the concrete registry with one `analyzing` file. -/
theorem witness_C9 :
    reanalyzeSession c6Store 0
      = ({ c6Store with
           sessions := dinsert c6Store.sessions 0
             { c6Sess with
               status := "processing", processedFiles := 0, completedAt := none },
           files := c6Store.files.map
             (fun p => if p.2.sessionId = 0
               then (p.1, resetFileRec p.2) else p) },
         Except.ok ()) :=
  claim_C9 c6Store 0 c6Sess
    ⟨by decide, by decide, by decide, by decide, by decide, by decide, by decide⟩
    rfl

/-! ## Lemmas about the upload handler (claims C8 and C10) -/

theorem dinsert_eq_append {κ α : Type} [DecidableEq κ] {d : List (κ × α)} {k : κ}
    (v : α) (h : dcontains d k = false) : dinsert d k v = d ++ [(k, v)] := by
  rw [dinsert, if_neg (by simp [h])]

theorem dcontains_false_of_lt {d : List (Nat × FileRec)} {c : Nat}
    (h : ∀ p ∈ d, p.1 < c) : dcontains d c = false := by
  rw [dcontains_eq_false_iff]
  intro p hp
  exact Nat.ne_of_lt (h p hp)

/-- One pass of the upload loop over the remaining files: each file with a
truthy name appends exactly one fresh record owned by `sid`; sessions are
untouched and id freshness is maintained. -/
theorem upload_loop_spec (sid : Nat) :
    ∀ (fl : List UploadFile) (st : Store),
      (∀ p ∈ st.files, p.1 < st.counter) →
      ∃ recs : List (Nat × FileRec),
        (fl.foldl
            (fun s f =>
              if truthyName f.filename then uploadOne s sid (f.filename.getD "") f
              else s)
            st).files = st.files ++ recs
        ∧ (fl.foldl
            (fun s f =>
              if truthyName f.filename then uploadOne s sid (f.filename.getD "") f
              else s)
            st).sessions = st.sessions
        ∧ (∀ p ∈ (fl.foldl
            (fun s f =>
              if truthyName f.filename then uploadOne s sid (f.filename.getD "") f
              else s)
            st).files,
            p.1 < (fl.foldl
              (fun s f =>
                if truthyName f.filename then uploadOne s sid (f.filename.getD "") f
                else s)
              st).counter)
        ∧ recs.length = (fl.filter (fun f => truthyName f.filename)).length
        ∧ (∀ p ∈ recs, p.2.sessionId = sid) := by
  intro fl
  induction fl with
  | nil =>
    intro st hlt
    exact ⟨[], by simp, rfl, hlt, rfl, by simp⟩
  | cons f rest ih =>
    intro st hlt
    by_cases ht : truthyName f.filename = true
    · have huo : ∃ rec : FileRec,
          uploadOne st sid (f.filename.getD "") f
            = { st with
                files := dinsert st.files st.counter rec,
                counter := st.counter + 1, clock := st.clock + 2 }
          ∧ rec.sessionId = sid :=
        ⟨_, rfl, rfl⟩
      obtain ⟨rec, hrec, hrecsid⟩ := huo
      have hcf : dcontains st.files st.counter = false := dcontains_false_of_lt hlt
      have happ : dinsert st.files st.counter rec = st.files ++ [(st.counter, rec)] :=
        dinsert_eq_append rec hcf
      have hlt1 : ∀ p ∈ ({ st with
          files := dinsert st.files st.counter rec,
          counter := st.counter + 1, clock := st.clock + 2 } : Store).files,
          p.1 < ({ st with
            files := dinsert st.files st.counter rec,
            counter := st.counter + 1, clock := st.clock + 2 } : Store).counter := by
        intro p hp
        simp only at hp ⊢
        rw [happ] at hp
        rcases List.mem_append.mp hp with hp | hp
        · exact Nat.lt_succ_of_lt (hlt p hp)
        · simp at hp
          rw [hp]
          exact Nat.lt_succ_self _
      obtain ⟨recs, h1, h2, h3, h4, h5⟩ := ih
        { st with
          files := dinsert st.files st.counter rec,
          counter := st.counter + 1, clock := st.clock + 2 } hlt1
      refine ⟨(st.counter, rec) :: recs, ?_, ?_, ?_, ?_, ?_⟩
      · rw [List.foldl_cons, if_pos ht, hrec, h1]
        simp only [happ]
        rw [List.append_assoc]
        rfl
      · rw [List.foldl_cons, if_pos ht, hrec, h2]
      · rw [List.foldl_cons, if_pos ht, hrec]
        exact h3
      · rw [List.filter_cons, if_pos ht]
        simp [h4]
      · intro p hp
        rcases List.mem_cons.mp hp with hp | hp
        · rw [hp]
          exact hrecsid
        · exact h5 p hp
    · obtain ⟨recs, h1, h2, h3, h4, h5⟩ := ih st hlt
      refine ⟨recs, ?_, ?_, ?_, ?_, ?_⟩
      · rw [List.foldl_cons, if_neg ht, h1]
      · rw [List.foldl_cons, if_neg ht, h2]
      · rw [List.foldl_cons, if_neg ht]
        exact h3
      · rw [List.filter_cons, if_neg ht]
        exact h4
      · exact h5

/-- Claim C10 (confirmed): a file with an empty or missing filename bypasses
the extension validation (only files with truthy names can ever be reported
invalid), creates no FileRecord and no object-store upload, yet still counts
in `totalFiles = len(files)`; so when such an upload succeeds the session
owns strictly fewer FileRecords than `totalFiles`, and a subsequent
successful run sets `processedFiles` to the number of FileRecords, strictly
less than `totalFiles`. -/
theorem claim_C10 :
    (∀ (st : Store) (fl : List UploadFile) (st' : Store) (names : List String),
      uploadFiles st fl = (st', UploadResp.err400Invalid names) →
      ∀ nm ∈ names, ∃ f ∈ fl, ∃ s, f.filename = some s ∧ s ≠ "")
    ∧ (∀ (st : Store) (fl : List UploadFile) (st' : Store) (sid : Nat),
      WF st →
      (∃ f ∈ fl, truthyName f.filename = false) →
      uploadFiles st fl = (st', UploadResp.ok sid) →
      ∃ sess : Session, dget? st'.sessions sid = some sess
        ∧ sess.totalFiles = fl.length
        ∧ (getFileAnalysisBySession st' sid).length
            = (fl.filter (fun f => truthyName f.filename)).length
        ∧ (getFileAnalysisBySession st' sid).length < sess.totalFiles
        ∧ (∀ (st'' : Store) (tr : List Ev),
            processSession st' sid = (st'', tr, Except.ok ()) →
            ∃ sess', dget? st''.sessions sid = some sess'
              ∧ sess'.processedFiles = (getFileAnalysisBySession st' sid).length
              ∧ sess'.processedFiles < sess'.totalFiles)) := by
  constructor
  · intro st fl st' names h nm hnm
    simp only [uploadFiles] at h
    by_cases he : fl.isEmpty = true
    · rw [if_pos he] at h
      simp only [Prod.mk.injEq] at h
      exact absurd h.2 (by simp)
    · rw [if_neg he] at h
      by_cases hi : ((fl.filter
          (fun f => truthyName f.filename
            && !hasValidExtension (f.filename.getD ""))).map
          (fun f => f.filename.getD "")).isEmpty = true
      · rw [if_neg (by simp [hi])] at h
        have h2 := congrArg Prod.snd h
        simp only at h2
        exact absurd h2 (by simp)
      · rw [if_pos (by simp [Bool.not_eq_true] at hi ⊢; exact hi)] at h
        simp only [Prod.mk.injEq] at h
        have hnames : names = (fl.filter
            (fun f => truthyName f.filename
              && !hasValidExtension (f.filename.getD ""))).map
            (fun f => f.filename.getD "") := by
          have := h.2
          injection this with hx
          exact hx.symm
        rw [hnames] at hnm
        obtain ⟨g, hg, hge⟩ := List.mem_map.mp hnm
        have hgf := List.mem_filter.mp hg
        rcases hgn : g.filename with _ | s
        · rw [hgn] at hgf
          simp [truthyName] at hgf
        · refine ⟨g, hgf.1, s, hgn, ?_⟩
          have := hgf.2
          rw [hgn] at this
          simp only [truthyName, Bool.and_eq_true, Bool.not_eq_true'] at this
          simpa using this.1
  · intro st fl st' sid hwf hghost h
    obtain ⟨f0, hf0, hf0t⟩ := hghost
    have hne : fl.isEmpty = false := by
      rcases fl with _ | _
      · cases hf0
      · rfl
    simp only [uploadFiles] at h
    rw [if_neg (by simp [hne])] at h
    by_cases hi : ((fl.filter
        (fun f => truthyName f.filename
          && !hasValidExtension (f.filename.getD ""))).map
        (fun f => f.filename.getD "")).isEmpty = true
    · rw [if_neg (by simp [hi])] at h
      have hc1 : (createAnalysisSession st
          { status := "pending", totalFiles := fl.length,
            processedFiles := 0 }).1
          = { st with
              sessions := dinsert st.sessions st.counter
                { id := st.counter, status := "pending",
                  totalFiles := fl.length, processedFiles := 0,
                  createdAt := st.clock, completedAt := none },
              counter := st.counter + 1, clock := st.clock + 1 } := rfl
      have hc2 : (createAnalysisSession st
          { status := "pending", totalFiles := fl.length,
            processedFiles := 0 }).2.id = st.counter := rfl
      rw [hc1, hc2] at h
      simp only [Prod.mk.injEq] at h
      obtain ⟨hst', hok⟩ := h
      have hsid : sid = st.counter := by
        injection hok.symm with hx
      subst hsid
      obtain ⟨recs, hr1, hr2, hr3, hr4, hr5⟩ := upload_loop_spec st.counter fl
        { st with
          sessions := dinsert st.sessions st.counter
            { id := st.counter, status := "pending",
              totalFiles := fl.length, processedFiles := 0,
              createdAt := st.clock, completedAt := none },
          counter := st.counter + 1, clock := st.clock + 1 }
        (by
          intro p hp
          simp only at hp
          exact Nat.lt_succ_of_lt (hwf.fileLt p hp))
      have hgetLoop : dget? (fl.foldl
          (fun s f =>
            if truthyName f.filename then
              uploadOne s st.counter (f.filename.getD "") f
            else s)
          { st with
            sessions := dinsert st.sessions st.counter
              { id := st.counter, status := "pending",
                totalFiles := fl.length, processedFiles := 0,
                createdAt := st.clock, completedAt := none },
            counter := st.counter + 1, clock := st.clock + 1 }).sessions st.counter
          = some { id := st.counter, status := "pending",
                   totalFiles := fl.length, processedFiles := 0,
                   createdAt := st.clock, completedAt := none } := by
        rw [hr2]
        simp only
        exact dget?_dinsert_self _ _ _
      have hsess : dget? st'.sessions st.counter
          = some { id := st.counter, status := "processing",
                   totalFiles := fl.length, processedFiles := 0,
                   createdAt := st.clock, completedAt := none } := by
        rw [← hst']
        rw [updateAnalysisSession_get_self _ _ _ hgetLoop]
        simp [applySessUpd]
      have hfiles' : st'.files = st.files ++ recs := by
        rw [← hst', updateAnalysisSession_files, hr1]
      have howned : getFileAnalysisBySession st' st.counter = recs.map (·.2) := by
        rw [getFileAnalysisBySession, hfiles', List.map_append, List.filter_append]
        have hold : (st.files.map (·.2)).filter
            (fun f => decide (f.sessionId = st.counter)) = [] := by
          rw [List.filter_eq_nil_iff]
          intro g hg
          obtain ⟨q, hq, hq2⟩ := List.mem_map.mp hg
          simp only [decide_eq_true_eq]
          intro hx
          have := hwf.fileSessLt q hq
          rw [hq2, hx] at this
          exact Nat.lt_irrefl _ this
        have hnew : (recs.map (·.2)).filter
            (fun f => decide (f.sessionId = st.counter)) = recs.map (·.2) := by
          rw [List.filter_eq_self]
          intro g hg
          obtain ⟨q, hq, hq2⟩ := List.mem_map.mp hg
          simp only [decide_eq_true_eq]
          rw [← hq2]
          exact hr5 q hq
        rw [hold, hnew, List.nil_append]
      have hlen : (getFileAnalysisBySession st' st.counter).length
          = (fl.filter (fun f => truthyName f.filename)).length := by
        rw [howned, List.length_map, hr4]
      have hlt : (getFileAnalysisBySession st' st.counter).length < fl.length := by
        rw [hlen]
        exact List.length_filter_lt_length_iff_exists.mpr
          ⟨f0, hf0, by simp [hf0t]⟩
      refine ⟨_, hsess, rfl, hlen, hlt, ?_⟩
      intro st'' tr hrun
      rcases hcase : getFileAnalysisBySession st' st.counter with _ | ⟨g, gs⟩
      · rw [processSession_of_empty st' st.counter hcase] at hrun
        simp only [Prod.mk.injEq] at hrun
        exact absurd hrun.2.2 (by simp)
      · obtain ⟨stFin, hfin, hfin2⟩ :=
          processSession_cons_spec st' st.counter g gs hcase
        rw [hfin] at hrun
        simp only [Prod.mk.injEq] at hrun
        obtain ⟨hb1, _, _⟩ := hrun
        obtain ⟨s', hs'get, hs'pf, hs'tf⟩ := hfin2 _ hsess
        rw [hcase] at hlt
        refine ⟨s', by rw [← hb1]; exact hs'get, hs'pf, ?_⟩
        rw [hs'pf, hs'tf]
        exact hlt
    · rw [if_pos (by simp [Bool.not_eq_true] at hi ⊢; exact hi)] at h
      simp only [Prod.mk.injEq] at h
      exact absurd h.2 (by simp)

/-- Witness for C10: uploading one unnamed and one `a.js` file into the empty
registry, then running the session. -/
theorem witness_C10 :
    ∃ sess : Session,
      dget? (uploadFiles emptyStore
          [{ filename := some "", content := "x", contentType := none },
           { filename := some "a.js", content := "yy", contentType := none }]).1.sessions 0
        = some sess
      ∧ sess.totalFiles = 2
      ∧ (getFileAnalysisBySession (uploadFiles emptyStore
          [{ filename := some "", content := "x", contentType := none },
           { filename := some "a.js", content := "yy", contentType := none }]).1 0).length
          = ([({ filename := some "", content := "x", contentType := none } :
                UploadFile),
              { filename := some "a.js", content := "yy",
                contentType := none }].filter
              (fun f => truthyName f.filename)).length
      ∧ (getFileAnalysisBySession (uploadFiles emptyStore
          [{ filename := some "", content := "x", contentType := none },
           { filename := some "a.js", content := "yy", contentType := none }]).1 0).length
          < sess.totalFiles
      ∧ (∀ (st'' : Store) (tr : List Ev),
          processSession (uploadFiles emptyStore
            [{ filename := some "", content := "x", contentType := none },
             { filename := some "a.js", content := "yy",
               contentType := none }]).1 0
            = (st'', tr, Except.ok ()) →
          ∃ sess', dget? st''.sessions 0 = some sess'
            ∧ sess'.processedFiles
                = (getFileAnalysisBySession (uploadFiles emptyStore
                    [{ filename := some "", content := "x", contentType := none },
                     { filename := some "a.js", content := "yy",
                       contentType := none }]).1 0).length
            ∧ sess'.processedFiles < sess'.totalFiles) := by
  have h := claim_C10.2 emptyStore
    [{ filename := some "", content := "x", contentType := none },
     { filename := some "a.js", content := "yy", contentType := none }]
    (uploadFiles emptyStore
      [{ filename := some "", content := "x", contentType := none },
       { filename := some "a.js", content := "yy", contentType := none }]).1
    0
    ⟨by decide, by decide, by decide, by decide, by decide, by decide, by decide⟩
    ⟨{ filename := some "", content := "x", contentType := none },
     List.mem_cons_self _ _, rfl⟩
    (by rfl)
  simpa using h

end EventConnect
